import Mathlib

/-!
# Telemetry ingestion pipeline of `internal/axiom/axiom.go`

A shallow embedding of the `Ingestor`: the subscription registry
(`trySubscribe`, the deferred cleanup of `subscribeServer`), the bounded event
queue (`enqueue`, `warnDrop`), the flush loop (`flusher`), delivery (`flush`),
normalization (`processEvent`, `processConsoleOutput`) and construction
(`NewIngestor`).

Conventions.
* A method with receiver `ing *Ingestor` becomes a function that takes the
  `Ingestor` value and returns a `Res`: the return value, the `Ingestor`
  afterwards and the list of observable effects it performed, oldest first
  (log entries, sleeps, HTTP requests, goroutines started, ticker operations).
* What the outside world decides is an explicit argument: the clock readings,
  the result of `json.Marshal`, whether `http.NewRequest` accepts the URL, the
  answer of the endpoint to each attempt, and the results of `events.DecodeTo`
  together with the topic constants of package `server`.
* `select` is modelled by a step function that is told which case fires; a case
  that is not ready yields `none`.
* The capacity argument of `make([]AxiomEvent, 0, batchSize)` is an allocation
  hint without effect on the contents of the slice and is not modelled.
-/

namespace Wings

/-! ## Time -/

/-- Go `time.Duration`: a signed number of nanoseconds. -/
abbrev Duration := Int

/-- Go `time.Second`. -/
def second : Duration := 1000000000

/-- Go `time.Minute`. -/
def minute : Duration := 60 * second

/-- Largest `time.Duration` (`1<<63 - 1`). -/
def maxDuration : Duration := 2 ^ 63 - 1

/-- Smallest `time.Duration` (`-1 << 63`). -/
def minDuration : Duration := -(2 ^ 63)

/-- Go `time.Time`, as nanoseconds relative to the Unix epoch. -/
abbrev Instant := Int

/-- The zero `time.Time` (January 1, year 1, 00:00 UTC), the initial value of
`lastDropWarn`. -/
def zeroTime : Instant := -62135596800 * second

/-- Go `Time.Sub`: the difference, saturated to the range of `time.Duration`. -/
def timeSub (t u : Instant) : Duration :=
  if t - u > maxDuration then maxDuration
  else if t - u < minDuration then minDuration
  else t - u

/-- Wrap-around of a Go `int64` product or sum. -/
def wrapInt64 (n : Int) : Int := (n + 2 ^ 63) % 2 ^ 64 - 2 ^ 63

/-! ## Data model -/

/-- Go `[]byte`. -/
abbrev Bytes := List UInt8

/-- `config.AxiomConfiguration` (config/config_axiom.go). -/
structure AxiomConfiguration where
  Enabled : Bool
  URL : String
  APIToken : String
  Dataset : String
  FlushInterval : Int
  BatchSize : Int
deriving DecidableEq, Repr

/-- `AxiomEvent`: the unified event sent to the ingest API. `uint64` fields are
naturals, `int64` fields integers; the `float64` sample is carried unchanged
through the pipeline and is represented by a rational. -/
structure AxiomEvent where
  Time : String
  EventType : String
  ServerID : String
  Status : String
  Line : String
  MemoryBytes : Nat
  MemoryLimitBytes : Nat
  CpuAbsolute : Rat
  NetworkRxBytes : Nat
  NetworkTxBytes : Nat
  Uptime : Int
  DiskBytes : Int
  State : String
deriving DecidableEq, Repr

/-- A buffered Go channel: its capacity and the values buffered, oldest first. -/
structure Chan (α : Type) where
  cap : Nat
  buf : List α
deriving DecidableEq, Repr

/-- The mutable part of `Ingestor`. `subscribedServers` is the key set of the
Go map `map[string]struct{}`. -/
structure Ingestor where
  cfg : AxiomConfiguration
  eventCh : Chan AxiomEvent
  subscribedServers : Finset String
  lastDropWarn : Instant
deriving DecidableEq

/-- The struct literal built by `NewIngestor`: a queue of 10000 slots, an empty
subscription map and the zero `lastDropWarn`. -/
def Ingestor.init (cfg : AxiomConfiguration) : Ingestor :=
  { cfg := cfg
    eventCh := { cap := 10000, buf := [] }
    subscribedServers := ∅
    lastDropWarn := zeroTime }

/-- What the pipeline uses of a `*server.Server`: its identifier. -/
structure Server where
  ID : String
deriving DecidableEq, Repr

/-! ## Observable effects -/

/-- Severity of an `apex/log` entry. -/
inductive Level where
  | debug
  | info
  | warn
  | error
deriving DecidableEq, Repr

/-- Value of a structured log field. -/
inductive FieldValue where
  | int (n : Int)
  | str (s : String)
deriving DecidableEq, Repr

/-- One log entry: level, structured fields and message. -/
structure LogEntry where
  level : Level
  fields : List (String × FieldValue)
  msg : String
deriving DecidableEq, Repr

/-- An HTTP request as handed to `client.Do`. -/
structure Request where
  method : String
  url : String
  header : List (String × String)
  body : Bytes
deriving DecidableEq, Repr

/-- `Header.Set`: replace the value stored under a key. -/
def headerSet (h : List (String × String)) (k v : String) : List (String × String) :=
  h.filter (fun kv => kv.1 != k) ++ [(k, v)]

/-- Result of `client.Do`: a transport error, or a response with its status code. -/
inductive Outcome where
  | transportError (err : String)
  | response (statusCode : Int)
deriving DecidableEq, Repr

/-- Effects observable outside the `Ingestor` value. -/
inductive Effect where
  | log (e : LogEntry)
  | sleep (d : Duration)
  | post (r : Request)
  | goSubscribeServer (id : String)
  | goFlusher
  | onServerAdd
  | eventsOn (id : String)
  | sinkOn (id : String)
  | eventsOff (id : String)
  | sinkOff (id : String)
  | tickerNew (d : Duration)
  | tickerReset (d : Duration)
  | tickerStop
deriving DecidableEq, Repr

/-- Result of a method call: return value, receiver afterwards, effects. -/
structure Res (α : Type) where
  val : α
  ing : Ingestor
  effects : List Effect

/-! ## Subscription registry -/

/-- `Ingestor.trySubscribe` (axiom.go 97-109). -/
def trySubscribe (ing : Ingestor) (s : Server) : Res Bool :=
  if s.ID ∈ ing.subscribedServers then
    { val := false, ing := ing, effects := [] }
  else
    { val := true
      ing := { ing with subscribedServers := insert s.ID ing.subscribedServers }
      effects :=
        [ Effect.log ⟨Level.debug, [("server", FieldValue.str s.ID)],
            "axiom: subscribing to server"⟩,
          Effect.goSubscribeServer s.ID ] }

/-- The deferred function of `Ingestor.subscribeServer` (axiom.go 122-133), run
when the listener of `serverID` returns: unsubscribe from both streams, delete
the id from `subscribedServers`, log. -/
def subscribeServerDefer (ing : Ingestor) (serverID : String) : Res Unit :=
  { val := ()
    ing := { ing with subscribedServers := ing.subscribedServers.erase serverID }
    effects :=
      [ Effect.eventsOff serverID, Effect.sinkOff serverID,
        Effect.log ⟨Level.debug, [("server", FieldValue.str serverID)],
          "axiom: unsubscribed from server"⟩ ] }

/-- Server ids of the listeners started by a list of effects
(`go ing.subscribeServer(ing.ctx, s)`). -/
def spawned : List Effect → List String
  | [] => []
  | Effect.goSubscribeServer id :: es => id :: spawned es
  | _ :: es => spawned es

/-- The registry together with the listener goroutines that are running. -/
structure Subscriptions where
  ing : Ingestor
  listeners : List String
deriving DecidableEq

/-- A step of the subscription life cycle. -/
inductive SubStep where
  | notify (s : Server)
  | listenerExit (id : String)
deriving DecidableEq, Repr

/-- One step: a source notification calls `trySubscribe` and the listeners it
starts begin to run; a listener exit is possible only for a running listener,
runs its deferred function and ends that goroutine. -/
def subStep (st : Subscriptions) : SubStep → Option Subscriptions
  | SubStep.notify s =>
      let r := trySubscribe st.ing s
      some { ing := r.ing, listeners := st.listeners ++ spawned r.effects }
  | SubStep.listenerExit id =>
      if id ∈ st.listeners then
        some { ing := (subscribeServerDefer st.ing id).ing
               listeners := st.listeners.erase id }
      else none

/-- Run a sequence of steps; `none` when some exit names no running listener. -/
def subRun (st : Subscriptions) : List SubStep → Option Subscriptions
  | [] => some st
  | x :: xs =>
      match subStep st x with
      | none => none
      | some st1 => subRun st1 xs

/-- Operations on the registry alone. -/
inductive RegOp where
  | claim (id : String)
  | release (id : String)
deriving DecidableEq, Repr

/-- Apply registry operations in order: `trySubscribe` and the deferred delete. -/
def regRun (ing : Ingestor) : List RegOp → Ingestor
  | [] => ing
  | RegOp.claim id :: ops => regRun (trySubscribe ing ⟨id⟩).ing ops
  | RegOp.release id :: ops => regRun (subscribeServerDefer ing id).ing ops

/-! ## Aggregator queue -/

/-- `Ingestor.warnDrop` (axiom.go 253-260). `t1` is the clock reading taken by
`time.Since`, `t2` the later reading taken by `time.Now()`. -/
def warnDrop (ing : Ingestor) (t1 t2 : Instant) : Res Unit :=
  if timeSub t1 ing.lastDropWarn ≥ minute then
    { val := ()
      ing := { ing with lastDropWarn := t2 }
      effects :=
        [ Effect.log ⟨Level.warn, [], "axiom: event channel full, dropping events"⟩ ] }
  else
    { val := (), ing := ing, effects := [] }

/-- `Ingestor.enqueue` (axiom.go 244-250): a non-blocking send. The send case is
ready when the buffer has a free slot; otherwise the `default` case runs
`warnDrop`. -/
def enqueue (ing : Ingestor) (ev : AxiomEvent) (t1 t2 : Instant) : Res Unit :=
  if ing.eventCh.buf.length < ing.eventCh.cap then
    { val := ()
      ing := { ing with eventCh := { ing.eventCh with buf := ing.eventCh.buf ++ [ev] } }
      effects := [] }
  else
    warnDrop ing t1 t2

/-- Enqueue a sequence of events one after the other, each with its own pair of
clock readings, with no receive in between. -/
def enqueueAll (ing : Ingestor) : List (AxiomEvent × Instant × Instant) → Ingestor
  | [] => ing
  | (ev, t1, t2) :: rest => enqueueAll (enqueue ing ev t1 t2).ing rest

/-! ## Delivery -/

/-- What `flush` obtains from outside the program during one call: the result
of `json.Marshal(batch)`, the error of `http.NewRequest` for a URL (if any), and
the outcome of `client.Do` at each attempt (attempts are numbered from 0). -/
structure Env where
  marshal : List AxiomEvent → Except String Bytes
  newRequestErr : String → Option String
  answer : Nat → Outcome

/-- The retry schedule of `flush`. -/
def backoffs : List Duration := [0, 1 * second, 2 * second]

/-- The ingest URL, `fmt.Sprintf("%s/v1/datasets/%s/ingest", URL, Dataset)`. -/
def ingestURL (cfg : AxiomConfiguration) : String :=
  cfg.URL ++ "/v1/datasets/" ++ cfg.Dataset ++ "/ingest"

/-- The request built in one iteration: `POST` to the URL with the two headers
set and the whole serialized batch as body (the reader is rewound first). -/
def buildRequest (ing : Ingestor) (url : String) (body : Bytes) : Request :=
  { method := "POST"
    url := url
    header :=
      headerSet (headerSet [] "Content-Type" "application/json")
        "Authorization" ("Bearer " ++ ing.cfg.APIToken)
    body := body }

/-- The attempt loop of `flush` (axiom.go 326-368), from attempt index `attempt`
over the remaining backoffs, followed by the final error report when the loop
runs out. Returns the effects performed. -/
def flushLoop (env : Env) (ing : Ingestor) (batch : List AxiomEvent) (url : String)
    (body : Bytes) : Nat → List Duration → List Effect
  | _, [] =>
      [ Effect.log ⟨Level.error, [("events", FieldValue.int batch.length)],
          "axiom: failed to ingest batch after all retries"⟩ ]
  | attempt, backoff :: rest =>
      (if backoff > 0 then [Effect.sleep backoff] else []) ++
      match env.newRequestErr url with
      | some err =>
          [ Effect.log ⟨Level.error, [("error", FieldValue.str err)],
              "axiom: failed to create HTTP request"⟩ ]
      | none =>
          Effect.post (buildRequest ing url body) ::
          match env.answer attempt with
          | Outcome.transportError err =>
              Effect.log ⟨Level.warn,
                [("error", FieldValue.str err), ("attempt", FieldValue.int (attempt + 1))],
                "axiom: network error during ingest"⟩ ::
              flushLoop env ing batch url body (attempt + 1) rest
          | Outcome.response statusCode =>
              if statusCode ≥ 200 ∧ statusCode < 300 then []
              else if statusCode ≥ 400 ∧ statusCode < 500 then
                [ Effect.log ⟨Level.error,
                    [("status", FieldValue.int statusCode),
                     ("events", FieldValue.int batch.length)],
                    "axiom: permanent ingest failure (4xx), not retrying"⟩ ]
              else
                Effect.log ⟨Level.warn,
                  [("status", FieldValue.int statusCode),
                   ("attempt", FieldValue.int (attempt + 1))],
                  "axiom: server error during ingest, retrying"⟩ ::
                flushLoop env ing batch url body (attempt + 1) rest

/-- `Ingestor.flush` (axiom.go 315-369). No field of the receiver is assigned. -/
def flush (env : Env) (ing : Ingestor) (batch : List AxiomEvent) : Res Unit :=
  match env.marshal batch with
  | Except.error err =>
      { val := ()
        ing := ing
        effects :=
          [ Effect.log ⟨Level.error, [("error", FieldValue.str err)],
              "axiom: failed to marshal event batch"⟩ ] }
  | Except.ok body =>
      { val := ()
        ing := ing
        effects := flushLoop env ing batch (ingestURL ing.cfg) body 0 backoffs }

/-- Requests handed to `client.Do`, in order: one per attempt. -/
def posts : List Effect → List Request
  | [] => []
  | Effect.post r :: es => r :: posts es
  | _ :: es => posts es

/-- For each attempt, the total time slept since the previous attempt (or since
the start for the first one). `acc` is the time slept so far. -/
def attemptDelays (acc : Duration) : List Effect → List Duration
  | [] => []
  | Effect.sleep d :: es => attemptDelays (acc + d) es
  | Effect.post _ :: es => acc :: attemptDelays 0 es
  | _ :: es => attemptDelays acc es

/-- Log entries of level `error`: the failure reports. -/
def failures : List Effect → List LogEntry
  | [] => []
  | Effect.log e :: es => if e.level = Level.error then e :: failures es else failures es
  | _ :: es => failures es

/-- A transient outcome in the sense of the retry policy: a transport error or
a 5xx response. -/
def Outcome.transient : Outcome → Prop
  | Outcome.transportError _ => True
  | Outcome.response c => 500 ≤ c ∧ c ≤ 599

/-- A 2xx response. -/
def Outcome.success : Outcome → Prop
  | Outcome.transportError _ => False
  | Outcome.response c => 200 ≤ c ∧ c ≤ 299

instance (o : Outcome) : Decidable o.transient := by
  cases o <;> unfold Outcome.transient <;> infer_instance

instance (o : Outcome) : Decidable o.success := by
  cases o <;> unfold Outcome.success <;> infer_instance

/-- An outcome after which the loop of `flush` goes on to the next backoff: a
transport error, or a status that is neither 2xx nor 4xx. -/
def Outcome.retried : Outcome → Prop
  | Outcome.transportError _ => True
  | Outcome.response c => ¬ (c ≥ 200 ∧ c < 300) ∧ ¬ (c ≥ 400 ∧ c < 500)

/-- The warning logged by `flush` for an attempt that is retried. -/
def retryWarning (o : Outcome) (attempt : Nat) : LogEntry :=
  match o with
  | Outcome.transportError err =>
      ⟨Level.warn, [("error", FieldValue.str err), ("attempt", FieldValue.int (attempt + 1))],
        "axiom: network error during ingest"⟩
  | Outcome.response statusCode =>
      ⟨Level.warn,
        [("status", FieldValue.int statusCode), ("attempt", FieldValue.int (attempt + 1))],
        "axiom: server error during ingest, retrying"⟩

/-! ## Flush loop -/

/-- The flush interval computed at the start of `flusher`: the configured number
of seconds (an `int64` product), or 5 seconds when that is not positive. -/
def flushInterval (cfg : AxiomConfiguration) : Duration :=
  if wrapInt64 (cfg.FlushInterval * second) ≤ 0 then 5 * second
  else wrapInt64 (cfg.FlushInterval * second)

/-- The effective maximum batch size computed at the start of `flusher`. -/
def effBatchSize (cfg : AxiomConfiguration) : Int :=
  if cfg.BatchSize ≤ 0 then 100 else cfg.BatchSize

/-- State of the pipeline seen from the flush loop: the `Ingestor`, the local
variables of `flusher`, and the history (events received from the queue, batches
handed to `flush`, effects), oldest first. -/
structure Pipeline where
  ing : Ingestor
  interval : Duration
  batchSize : Int
  batch : List AxiomEvent
  exited : Bool
  taken : List AxiomEvent
  flushed : List (List AxiomEvent)
  effects : List Effect

/-- The state of `flusher` when it reaches its loop for the first time: ticker
created, batch size fixed, empty batch. -/
def flusherStart (ing : Ingestor) : Pipeline :=
  { ing := ing
    interval := flushInterval ing.cfg
    batchSize := effBatchSize ing.cfg
    batch := []
    exited := false
    taken := []
    flushed := []
    effects := [Effect.tickerNew (flushInterval ing.cfg)] }

/-- The call `ing.flush(batch)` inside the loop; `envs k` is the outside world
during the call number `k` (counted from 0). -/
def Pipeline.callFlush (envs : Nat → Env) (p : Pipeline) (batch : List AxiomEvent) :
    Pipeline :=
  { p with
    ing := (flush (envs p.flushed.length) p.ing batch).ing
    flushed := p.flushed ++ [batch]
    effects := p.effects ++ (flush (envs p.flushed.length) p.ing batch).effects }

/-- The drain loop of the shutdown case (axiom.go 295-302): receive until the
queue is empty. Returns the batch and the queue afterwards. -/
def drain : List AxiomEvent → List AxiomEvent → List AxiomEvent × List AxiomEvent
  | batch, [] => (batch, [])
  | batch, ev :: q => drain (batch ++ [ev]) q

/-- A step of the pipeline: a listener calls `enqueue`, or the `select` of
`flusher` takes one of its three cases. -/
inductive Step where
  | enqueue (ev : AxiomEvent) (t1 t2 : Instant)
  | recv
  | tick
  | done
deriving DecidableEq, Repr

/-- One step. The receive case is ready only when the queue holds an event; no
case of the loop runs once `flusher` has returned. -/
def step (envs : Nat → Env) (p : Pipeline) : Step → Option Pipeline
  | Step.enqueue ev t1 t2 =>
      some { p with
        ing := (enqueue p.ing ev t1 t2).ing
        effects := p.effects ++ (enqueue p.ing ev t1 t2).effects }
  | Step.recv =>
      if p.exited then none
      else
        match p.ing.eventCh.buf with
        | [] => none
        | ev :: q =>
            let p1 : Pipeline :=
              { p with
                ing := { p.ing with eventCh := { p.ing.eventCh with buf := q } }
                taken := p.taken ++ [ev]
                batch := p.batch ++ [ev] }
            if (p1.batch.length : Int) ≥ p1.batchSize then
              let p2 := p1.callFlush envs p1.batch
              some { p2 with
                batch := []
                effects := p2.effects ++ [Effect.tickerReset p2.interval] }
            else some p1
  | Step.tick =>
      if p.exited then none
      else if p.batch.length > 0 then
        some { p.callFlush envs p.batch with batch := [] }
      else some p
  | Step.done =>
      if p.exited then none
      else
        let d := drain p.batch p.ing.eventCh.buf
        let p1 : Pipeline :=
          { p with
            ing := { p.ing with eventCh := { p.ing.eventCh with buf := d.2 } }
            taken := p.taken ++ p.ing.eventCh.buf
            batch := d.1 }
        let p2 := if p1.batch.length > 0 then p1.callFlush envs p1.batch else p1
        some { p2 with
          exited := true
          effects := p2.effects ++
            [ Effect.log ⟨Level.info, [], "axiom: shutdown complete"⟩, Effect.tickerStop ] }

/-- Run a sequence of steps; `none` when a step is not possible. -/
def run (envs : Nat → Env) (p : Pipeline) : List Step → Option Pipeline
  | [] => some p
  | x :: xs =>
      match step envs p x with
      | none => none
      | some p1 => run envs p1 xs

/-- Ticker operations among the effects, in order. -/
def tickerOps (es : List Effect) : List Effect :=
  es.filter (fun e =>
    match e with
    | Effect.tickerNew _ => true
    | Effect.tickerReset _ => true
    | Effect.tickerStop => true
    | _ => false)

/-- Invariant of the flush loop. While the loop runs, the events received are
the flushed batches followed by the current batch, the current batch is shorter
than the batch size and no flushed batch is longer than it; no flushed batch is
ever empty; once the loop has returned, the events received are exactly the
flushed batches. -/
def FlushInv (p : Pipeline) : Prop :=
  1 ≤ p.batchSize ∧
  (∀ b ∈ p.flushed, b ≠ []) ∧
  (p.exited = false →
    p.taken = p.flushed.flatten ++ p.batch ∧ (p.batch.length : Int) < p.batchSize ∧
    ∀ b ∈ p.flushed, (b.length : Int) ≤ p.batchSize) ∧
  (p.exited = true → p.taken = p.flushed.flatten)

/-- Invariant of the flush loop, relative to an earlier state with history
`t0`, `f0`, `e0`, as long as no timer fires and no shutdown is signalled: the
events received since then are the batches flushed since then followed by the
current batch, each of those batches has exactly the batch size, and the ticker
has been reset once per flush. -/
def SizeInv (t0 : List AxiomEvent) (f0 : List (List AxiomEvent)) (e0 : List Effect)
    (p : Pipeline) : Prop :=
  p.exited = false ∧ 1 ≤ p.batchSize ∧
  ∃ (nt : List AxiomEvent) (nf : List (List AxiomEvent)) (ne : List Effect),
    p.taken = t0 ++ nt ∧ p.flushed = f0 ++ nf ∧ p.effects = e0 ++ ne ∧
    nt = nf.flatten ++ p.batch ∧ (p.batch.length : Int) < p.batchSize ∧
    (∀ b ∈ nf, (b.length : Int) = p.batchSize) ∧
    tickerOps ne = List.replicate nf.length (Effect.tickerReset p.interval)

/-- Number of receive steps in a sequence of steps. -/
def recvCount : List Step → Nat
  | [] => 0
  | Step.recv :: xs => recvCount xs + 1
  | _ :: xs => recvCount xs

/-- A sequence of steps without timer fire and without shutdown signal. -/
def timerFree : List Step → Bool
  | [] => true
  | Step.tick :: _ => false
  | Step.done :: _ => false
  | _ :: xs => timerFree xs

/-! ## Sample data -/

/-- The event built by `processConsoleOutput` (axiom.go 234-239) for a raw line,
`now` being the formatted clock reading. -/
def consoleEvent (now serverID line : String) : AxiomEvent :=
  { Time := now
    EventType := "console_output"
    ServerID := serverID
    Status := ""
    Line := line
    MemoryBytes := 0
    MemoryLimitBytes := 0
    CpuAbsolute := 0
    NetworkRxBytes := 0
    NetworkTxBytes := 0
    Uptime := 0
    DiskBytes := 0
    State := "" }

/-- A configuration with the documented defaults. -/
def sampleCfg : AxiomConfiguration :=
  { Enabled := true
    URL := "https://api.axiom.co"
    APIToken := "token"
    Dataset := "wings"
    FlushInterval := 5
    BatchSize := 100 }

/-- Three console events of one server. -/
def ev1 : AxiomEvent := consoleEvent "t1" "srv" "one"

/-- Second sample event. -/
def ev2 : AxiomEvent := consoleEvent "t2" "srv" "two"

/-- Third sample event. -/
def ev3 : AxiomEvent := consoleEvent "t3" "srv" "three"

/-- An ingestor whose queue has the given capacity and contents. -/
def sampleIng (cfg : AxiomConfiguration) (cap : Nat) (buf : List AxiomEvent) : Ingestor :=
  { Ingestor.init cfg with eventCh := { cap := cap, buf := buf } }

/-- An outside world in which the batch serializes to `[]`-like bytes, the
request can be built and the endpoint gives the listed answers in turn, then
503 for ever. -/
def sampleEnv (answers : List Outcome) : Env :=
  { marshal := fun _ => Except.ok [91, 93]
    newRequestErr := fun _ => none
    answer := fun n => answers.getD n (Outcome.response 503) }

/-- The sample configuration with another batch size. -/
def cfgWithBatch (n : Int) : AxiomConfiguration := { sampleCfg with BatchSize := n }

/-- An outside world in which every delivery succeeds at once. -/
def okEnvs : Nat → Env := fun _ => sampleEnv [Outcome.response 200]

/-! ## Normalization -/

/-- The anonymous struct `Network` of `statsEventPayload`. -/
structure NetworkCounters where
  RxBytes : Nat
  TxBytes : Nat
deriving DecidableEq, Repr

/-- `statsEventPayload` (axiom.go 161-174). `State` is the pointer to the nested
object: `none` for nil, otherwise its `Value`. -/
structure statsEventPayload where
  Memory : Nat
  MemoryLimit : Nat
  CpuAbsolute : Rat
  Network : NetworkCounters
  Uptime : Int
  Disk : Int
  State : Option String
deriving DecidableEq, Repr

/-- `statsEventData` (axiom.go 156-159). -/
structure statsEventData where
  Topic : String
  Data : statsEventPayload
deriving DecidableEq, Repr

/-- `statusEventData` (axiom.go 177-180). -/
structure statusEventData where
  Topic : String
  Data : String
deriving DecidableEq, Repr

/-- What `processEvent` reads of the envelope `events.Event`: the topic. -/
structure Event where
  Topic : String
deriving DecidableEq, Repr

/-- Declarations used by `processEvent` that live outside this file, taken as
parameters: the topic constants `server.StatsEvent` and `server.StatusEvent`,
and `events.DecodeTo` at the three target types, each returning the decoded
value or the error. -/
structure Decoding where
  StatsEvent : String
  StatusEvent : String
  decodeEvent : Bytes → Except String Event
  decodeStats : Bytes → Except String statsEventData
  decodeStatus : Bytes → Except String statusEventData

/-- The event built in the `StatsEvent` case of `processEvent` (axiom.go
200-214), `now` being the formatted clock reading. -/
def statsAxiomEvent (now serverID : String) (stats : statsEventData) : AxiomEvent :=
  { Time := now
    EventType := "stats"
    ServerID := serverID
    Status := ""
    Line := ""
    MemoryBytes := stats.Data.Memory
    MemoryLimitBytes := stats.Data.MemoryLimit
    CpuAbsolute := stats.Data.CpuAbsolute
    NetworkRxBytes := stats.Data.Network.RxBytes
    NetworkTxBytes := stats.Data.Network.TxBytes
    Uptime := stats.Data.Uptime
    DiskBytes := stats.Data.Disk
    State :=
      match stats.Data.State with
      | some value => value
      | none => "" }

/-- The event built in the `StatusEvent` case of `processEvent` (axiom.go
223-228). -/
def statusAxiomEvent (now serverID : String) (status : statusEventData) : AxiomEvent :=
  { Time := now
    EventType := "status"
    ServerID := serverID
    Status := status.Data
    Line := ""
    MemoryBytes := 0
    MemoryLimitBytes := 0
    CpuAbsolute := 0
    NetworkRxBytes := 0
    NetworkTxBytes := 0
    Uptime := 0
    DiskBytes := 0
    State := "" }

/-- `Ingestor.processEvent` (axiom.go 185-230). `now` is the formatted clock
reading, `t1 t2` the clock readings `enqueue` may take. -/
def processEvent (d : Decoding) (ing : Ingestor) (serverID : String) (data : Bytes)
    (now : String) (t1 t2 : Instant) : Res Unit :=
  match d.decodeEvent data with
  | Except.error _ => { val := (), ing := ing, effects := [] }
  | Except.ok e =>
      if e.Topic = d.StatsEvent then
        match d.decodeStats data with
        | Except.error err =>
            { val := ()
              ing := ing
              effects :=
                [ Effect.log ⟨Level.warn, [("error", FieldValue.str err)],
                    "axiom: failed to decode stats event"⟩ ] }
        | Except.ok stats => enqueue ing (statsAxiomEvent now serverID stats) t1 t2
      else if e.Topic = d.StatusEvent then
        match d.decodeStatus data with
        | Except.error err =>
            { val := ()
              ing := ing
              effects :=
                [ Effect.log ⟨Level.warn, [("error", FieldValue.str err)],
                    "axiom: failed to decode status event"⟩ ] }
        | Except.ok status => enqueue ing (statusAxiomEvent now serverID status) t1 t2
      else
        { val := (), ing := ing, effects := [] }

/-- `Ingestor.processConsoleOutput` (axiom.go 233-240); `line` is `string(data)`. -/
def processConsoleOutput (ing : Ingestor) (serverID line : String) (now : String)
    (t1 t2 : Instant) : Res Unit :=
  enqueue ing (consoleEvent now serverID line) t1 t2

/-- The case taken by the `select` of `subscribeServer`: a receive on the event
stream or on the log stream (`none` when the channel is closed), or one of the
two cancellation signals. -/
inductive ListenerCase where
  | event (data : Option Bytes)
  | logLine (line : Option String)
  | serverDone
  | ctxDone
deriving DecidableEq, Repr

/-- One iteration of the loop of `subscribeServer` (axiom.go 135-152). The value
is true when the loop goes on; when it is false the function has returned and
its deferred function has run. -/
def subscribeServerIter (d : Decoding) (ing : Ingestor) (serverID : String) (now : String)
    (t1 t2 : Instant) : ListenerCase → Res Bool
  | ListenerCase.event (some data) =>
      { val := true
        ing := (processEvent d ing serverID data now t1 t2).ing
        effects := (processEvent d ing serverID data now t1 t2).effects }
  | ListenerCase.logLine (some line) =>
      { val := true
        ing := (processConsoleOutput ing serverID line now t1 t2).ing
        effects := (processConsoleOutput ing serverID line now t1 t2).effects }
  | _ =>
      { val := false
        ing := (subscribeServerDefer ing serverID).ing
        effects := (subscribeServerDefer ing serverID).effects }

/-- Value of a serialized JSON member. -/
inductive JsonValue where
  | str (s : String)
  | uint (n : Nat)
  | int (n : Int)
  | float (q : Rat)
deriving DecidableEq, Repr

/-- The members of the JSON object of an `AxiomEvent`, in field order, as fixed
by its struct tags (axiom.go 21-35): `_time`, `event_type` and `server_id`
always, every other member only when the field is not the zero value of its
type (`omitempty`). -/
def AxiomEvent.jsonFields (ev : AxiomEvent) : List (String × JsonValue) :=
  [ ("_time", JsonValue.str ev.Time),
    ("event_type", JsonValue.str ev.EventType),
    ("server_id", JsonValue.str ev.ServerID) ] ++
  (if ev.Status = "" then [] else [("status", JsonValue.str ev.Status)]) ++
  (if ev.Line = "" then [] else [("line", JsonValue.str ev.Line)]) ++
  (if ev.MemoryBytes = 0 then [] else [("memory_bytes", JsonValue.uint ev.MemoryBytes)]) ++
  (if ev.MemoryLimitBytes = 0 then []
    else [("memory_limit_bytes", JsonValue.uint ev.MemoryLimitBytes)]) ++
  (if ev.CpuAbsolute = 0 then [] else [("cpu_absolute", JsonValue.float ev.CpuAbsolute)]) ++
  (if ev.NetworkRxBytes = 0 then []
    else [("network_rx_bytes", JsonValue.uint ev.NetworkRxBytes)]) ++
  (if ev.NetworkTxBytes = 0 then []
    else [("network_tx_bytes", JsonValue.uint ev.NetworkTxBytes)]) ++
  (if ev.Uptime = 0 then [] else [("uptime", JsonValue.int ev.Uptime)]) ++
  (if ev.DiskBytes = 0 then [] else [("disk_bytes", JsonValue.int ev.DiskBytes)]) ++
  (if ev.State = "" then [] else [("state", JsonValue.str ev.State)])

/-- The keys of the JSON object of an event. -/
def AxiomEvent.jsonKeys (ev : AxiomEvent) : List String :=
  ev.jsonFields.map (fun kv => kv.1)

/-! ## Construction -/

/-- The loop `for _, s := range manager.All() { ing.trySubscribe(s) }` of
`NewIngestor`. -/
def subscribeExisting (ing : Ingestor) : List Server → Ingestor × List Effect
  | [] => (ing, [])
  | s :: rest =>
      ((subscribeExisting (trySubscribe ing s).ing rest).1,
        (trySubscribe ing s).effects ++ (subscribeExisting (trySubscribe ing s).ing rest).2)

/-- `NewIngestor` (axiom.go 57-93). `cfg` is `config.Get().Axiom` and `all` is
`manager.All()`. Returns the ingestor (`none` for nil) and the effects. -/
def NewIngestor (cfg : AxiomConfiguration) (all : List Server) :
    Option Ingestor × List Effect :=
  if !cfg.Enabled then (none, [])
  else if cfg.URL = "" ∨ cfg.APIToken = "" ∨ cfg.Dataset = "" then
    (none,
      [ Effect.log ⟨Level.warn, [],
          "axiom: enabled but url, api_token, or dataset is empty; skipping initialization"⟩ ])
  else
    (some (subscribeExisting (Ingestor.init cfg) all).1,
      [Effect.onServerAdd] ++ (subscribeExisting (Ingestor.init cfg) all).2 ++
        [Effect.goFlusher])

/-- Goroutines started by a list of effects: listeners and the flush loop. -/
def tasks (es : List Effect) : List Effect :=
  es.filter (fun e =>
    match e with
    | Effect.goSubscribeServer _ => true
    | Effect.goFlusher => true
    | _ => false)

/-! ## Drop warnings -/

/-- A decoder for the samples: the first byte of a message selects the topic
(1 stats, 2 status, 3 console output), a second byte 0 makes the payload fail to
decode; the stats payload is the sample of the round-trip property. -/
def sampleDecoding : Decoding :=
  { StatsEvent := "stats"
    StatusEvent := "status"
    decodeEvent := fun data =>
      match data with
      | 1 :: _ => Except.ok ⟨"stats"⟩
      | 2 :: _ => Except.ok ⟨"status"⟩
      | 3 :: _ => Except.ok ⟨"console output"⟩
      | _ => Except.error "invalid character"
    decodeStats := fun data =>
      match data with
      | _ :: 0 :: _ => Except.error "cannot unmarshal"
      | _ => Except.ok ⟨"stats", ⟨100, 200, 1 / 2, ⟨10, 20⟩, 5, 1000, none⟩⟩
    decodeStatus := fun data =>
      match data with
      | _ :: 0 :: _ => Except.error "cannot unmarshal"
      | _ => Except.ok ⟨"status", "running"⟩ }

/-! ## Classification of attempts -/

instance (o : Outcome) : Decidable o.retried := by
  cases o <;> unfold Outcome.retried <;> infer_instance

/-- Whether an effect is a log entry of level `warn`. -/
def isWarning : Effect → Bool
  | Effect.log e => decide (e.level = Level.warn)
  | _ => false

/-- The effects other than warnings: requests, sleeps, failure reports and the
rest. -/
def quiet (es : List Effect) : List Effect :=
  es.filter (fun e => !isWarning e)

/-- The outside world `env` with the answer to attempt `k` replaced by `o`. -/
def Env.withAnswer (env : Env) (k : Nat) (o : Outcome) : Env :=
  { env with answer := fun n => if n = k then o else env.answer n }

/-! ## Drops made by enqueue -/

theorem spawned_trySubscribe (ing : Ingestor) (s : Server) :
    spawned (trySubscribe ing s).effects =
      if s.ID ∈ ing.subscribedServers then [] else [s.ID] := by
  unfold trySubscribe
  split <;> simp [spawned]

theorem trySubscribe_subscribed (ing : Ingestor) (s : Server) :
    (trySubscribe ing s).ing.subscribedServers = insert s.ID ing.subscribedServers := by
  unfold trySubscribe
  split
  · rename_i h
    simp [Finset.insert_eq_of_mem h]
  · rfl

/-- The listeners that run are exactly the ids held by the registry, once each. -/
def SubInv (st : Subscriptions) : Prop :=
  ∀ id : String, st.listeners.count id = if id ∈ st.ing.subscribedServers then 1 else 0

theorem subStep_inv (st st1 : Subscriptions) (x : SubStep) (hinv : SubInv st)
    (hstep : subStep st x = some st1) : SubInv st1 := by
  intro id
  have hid := hinv id
  cases x with
  | notify s =>
      simp only [subStep, Option.some.injEq] at hstep
      subst hstep
      simp only [spawned_trySubscribe, trySubscribe_subscribed, List.count_append,
        Finset.mem_insert]
      have hs := hinv s.ID
      by_cases hmem : s.ID ∈ st.ing.subscribedServers
      · by_cases heq : id = s.ID
        · subst heq
          simp [hmem] at hid ⊢
          exact hid
        · simp [hmem, heq, hid]
      · by_cases hq : id = s.ID
        · subst hq
          simp [hmem] at hid ⊢
          simp [hid]
        · have hne : ¬ (s.ID = id) := fun h => hq h.symm
          simp [hmem, hq, hne, hid, List.count_cons]
  | listenerExit id0 =>
      simp only [subStep] at hstep
      split at hstep
      · rename_i hlive
        simp only [Option.some.injEq] at hstep
        subst hstep
        simp only [subscribeServerDefer, Finset.mem_erase, List.count_erase]
        by_cases hq : id = id0
        · subst hq
          have hpos : 0 < st.listeners.count id := List.count_pos_iff.mpr hlive
          by_cases hmem : id ∈ st.ing.subscribedServers
          · simp [hmem] at hid
            simp [hid]
          · simp [hmem] at hid
            omega
        · have hne : ¬ (id0 = id) := fun h => hq h.symm
          simp [hq, hne, hid]
      · exact absurd hstep (by simp)

theorem subRun_inv (steps : List SubStep) (st st1 : Subscriptions) (hinv : SubInv st)
    (hrun : subRun st steps = some st1) : SubInv st1 := by
  induction steps generalizing st with
  | nil =>
      simp only [subRun, Option.some.injEq] at hrun
      exact hrun ▸ hinv
  | cons x xs ih =>
      simp only [subRun] at hrun
      cases hx : subStep st x with
      | none => simp [hx] at hrun
      | some st2 =>
          simp only [hx] at hrun
          exact ih st2 (subStep_inv st st2 x hinv hx) hrun

/-- C1: starting from an empty registry with no listener, after every prefix of
every sequence of source notifications and exits of running listeners, each
source id has at most one running listener. -/
theorem at_most_one_listener (ing : Ingestor) (hempty : ing.subscribedServers = ∅)
    (steps : List SubStep) (k : Nat) (st : Subscriptions)
    (hrun : subRun { ing := ing, listeners := [] } (steps.take k) = some st)
    (id : String) : st.listeners.count id ≤ 1 := by
  have h0 : SubInv { ing := ing, listeners := [] } := by
    intro i
    simp [hempty]
  have h := subRun_inv (steps.take k) _ st h0 hrun id
  split at h <;> omega

/-- Witness of C1: notify a, notify a again, notify b, exit of a, notify a. -/
theorem at_most_one_listener_witness :
    subRun { ing := Ingestor.init ⟨true, "u", "t", "d", 5, 100⟩, listeners := [] }
        ([SubStep.notify ⟨"a"⟩, SubStep.notify ⟨"a"⟩, SubStep.notify ⟨"b"⟩,
          SubStep.listenerExit "a", SubStep.notify ⟨"a"⟩].take 5) =
      some { ing := { Ingestor.init ⟨true, "u", "t", "d", 5, 100⟩ with
                      subscribedServers := {"a", "b"} },
             listeners := ["b", "a"] } ∧
    List.count "a" ["b", "a"] ≤ 1 :=
  ⟨by decide,
    at_most_one_listener (Ingestor.init ⟨true, "u", "t", "d", 5, 100⟩) rfl
      [SubStep.notify ⟨"a"⟩, SubStep.notify ⟨"a"⟩, SubStep.notify ⟨"b"⟩,
        SubStep.listenerExit "a", SubStep.notify ⟨"a"⟩] 5
      { ing := { Ingestor.init ⟨true, "u", "t", "d", 5, 100⟩ with
                 subscribedServers := {"a", "b"} },
        listeners := ["b", "a"] } (by decide) "a"⟩

/-- C2: in every registry reached by claims and releases (from the empty
registry, or from any other),
`trySubscribe id` returns true exactly when `id` is absent, and `id` is present
afterwards; when `id` is present it returns false and changes nothing; the
release removes `id` and keeps the membership of every other id, and a
`trySubscribe id` right after it returns true. -/
theorem registry_claim_release (ing0 : Ingestor) (ops : List RegOp) (id : String) :
    ((trySubscribe (regRun ing0 ops) ⟨id⟩).val = true ↔
        id ∉ (regRun ing0 ops).subscribedServers) ∧
    id ∈ (trySubscribe (regRun ing0 ops) ⟨id⟩).ing.subscribedServers ∧
    (id ∈ (regRun ing0 ops).subscribedServers →
        (trySubscribe (regRun ing0 ops) ⟨id⟩).val = false ∧
        (trySubscribe (regRun ing0 ops) ⟨id⟩).ing = regRun ing0 ops ∧
        (trySubscribe (regRun ing0 ops) ⟨id⟩).effects = []) ∧
    id ∉ (subscribeServerDefer (regRun ing0 ops) id).ing.subscribedServers ∧
    (∀ other : String, other ≠ id →
        (other ∈ (subscribeServerDefer (regRun ing0 ops) id).ing.subscribedServers ↔
          other ∈ (regRun ing0 ops).subscribedServers)) ∧
    (trySubscribe (subscribeServerDefer (regRun ing0 ops) id).ing ⟨id⟩).val = true := by
  generalize regRun ing0 ops = ing
  refine ⟨?_, ?_, ?_, ?_, ?_, ?_⟩
  · unfold trySubscribe
    split <;> simp_all
  · rw [trySubscribe_subscribed]
    simp
  · intro h
    simp [trySubscribe, h]
  · simp [subscribeServerDefer]
  · intro other hne
    simp [subscribeServerDefer, hne]
  · simp [trySubscribe, subscribeServerDefer]

/-- Witness of C2: after claiming a and b and releasing a, a can be claimed again. -/
theorem registry_claim_release_witness :
    (regRun (Ingestor.init ⟨true, "u", "t", "d", 5, 100⟩)
        [RegOp.claim "a", RegOp.claim "b", RegOp.release "a"]).subscribedServers = {"b"} ∧
    ((trySubscribe (regRun (Ingestor.init ⟨true, "u", "t", "d", 5, 100⟩)
        [RegOp.claim "a", RegOp.claim "b", RegOp.release "a"]) ⟨"a"⟩).val = true ↔
      "a" ∉ (regRun (Ingestor.init ⟨true, "u", "t", "d", 5, 100⟩)
        [RegOp.claim "a", RegOp.claim "b", RegOp.release "a"]).subscribedServers) :=
  ⟨by decide,
    (registry_claim_release (Ingestor.init ⟨true, "u", "t", "d", 5, 100⟩)
      [RegOp.claim "a", RegOp.claim "b", RegOp.release "a"] "a").1⟩

/-! ## Aggregator queue -/

theorem warnDrop_eventCh (ing : Ingestor) (t1 t2 : Instant) :
    (warnDrop ing t1 t2).ing.eventCh = ing.eventCh := by
  unfold warnDrop
  split <;> rfl

theorem enqueue_cap (ing : Ingestor) (ev : AxiomEvent) (t1 t2 : Instant) :
    (enqueue ing ev t1 t2).ing.eventCh.cap = ing.eventCh.cap := by
  unfold enqueue
  split
  · rfl
  · rw [warnDrop_eventCh]

theorem enqueue_buf (ing : Ingestor) (ev : AxiomEvent) (t1 t2 : Instant) :
    (enqueue ing ev t1 t2).ing.eventCh.buf =
      if ing.eventCh.buf.length < ing.eventCh.cap then ing.eventCh.buf ++ [ev]
      else ing.eventCh.buf := by
  unfold enqueue
  split
  · rfl
  · rw [warnDrop_eventCh]

theorem enqueueAll_eventCh (calls : List (AxiomEvent × Instant × Instant)) (ing : Ingestor)
    (hle : ing.eventCh.buf.length ≤ ing.eventCh.cap) :
    (enqueueAll ing calls).eventCh.cap = ing.eventCh.cap ∧
    (enqueueAll ing calls).eventCh.buf =
      (ing.eventCh.buf ++ calls.map (fun c => c.1)).take ing.eventCh.cap := by
  induction calls generalizing ing with
  | nil =>
      simp only [enqueueAll, List.map_nil, List.append_nil, true_and]
      exact (List.take_of_length_le hle).symm
  | cons c rest ih =>
      obtain ⟨ev, t1, t2⟩ := c
      have hcap := enqueue_cap ing ev t1 t2
      have hbuf := enqueue_buf ing ev t1 t2
      by_cases hlt : ing.eventCh.buf.length < ing.eventCh.cap
      · rw [if_pos hlt] at hbuf
        have hle1 : (enqueue ing ev t1 t2).ing.eventCh.buf.length ≤
            (enqueue ing ev t1 t2).ing.eventCh.cap := by
          rw [hcap, hbuf, List.length_append, List.length_singleton]
          omega
        have h := ih (enqueue ing ev t1 t2).ing hle1
        simp only [enqueueAll, List.map_cons]
        rw [h.1, h.2, hcap, hbuf]
        simp
      · rw [if_neg hlt] at hbuf
        have heq : ing.eventCh.buf.length = ing.eventCh.cap := by omega
        have hle1 : (enqueue ing ev t1 t2).ing.eventCh.buf.length ≤
            (enqueue ing ev t1 t2).ing.eventCh.cap := by
          rw [hcap, hbuf]
          exact hle
        have h := ih (enqueue ing ev t1 t2).ing hle1
        simp only [enqueueAll, List.map_cons]
        rw [h.1, h.2, hcap, hbuf]
        refine ⟨rfl, ?_⟩
        rw [List.take_append_of_le_length (by omega), List.take_append_of_le_length (by omega)]

/-- C3: for every capacity and every sequence of enqueue calls on an empty queue
with no receive in between, the queue then holds exactly the first
min(N, capacity) events in call order (all of them when N is at most the
capacity); a call made on a queue that already holds capacity-many events leaves
the queue as it is and returns. -/
theorem enqueue_bounded_fifo (ing : Ingestor) (hempty : ing.eventCh.buf = [])
    (calls : List (AxiomEvent × Instant × Instant)) :
    (enqueueAll ing calls).eventCh.cap = ing.eventCh.cap ∧
    (enqueueAll ing calls).eventCh.buf =
      (calls.map (fun c => c.1)).take (min calls.length ing.eventCh.cap) ∧
    (calls.length ≤ ing.eventCh.cap →
      (enqueueAll ing calls).eventCh.buf = calls.map (fun c => c.1)) ∧
    (∀ (full : Ingestor) (ev : AxiomEvent) (t1 t2 : Instant),
      full.eventCh.buf.length = full.eventCh.cap →
      (enqueue full ev t1 t2).ing.eventCh = full.eventCh ∧
      (enqueue full ev t1 t2).val = ()) := by
  have h := enqueueAll_eventCh calls ing (by simp [hempty])
  rw [hempty, List.nil_append] at h
  refine ⟨h.1, ?_, ?_, ?_⟩
  · rw [h.2]
    by_cases hc : calls.length ≤ ing.eventCh.cap
    · rw [Nat.min_eq_left hc, List.take_of_length_le (by simpa using hc),
        List.take_of_length_le (by simp)]
    · rw [Nat.min_eq_right (by omega)]
  · intro hc
    rw [h.2]
    exact List.take_of_length_le (by simpa using hc)
  · intro full ev t1 t2 hfull
    refine ⟨?_, rfl⟩
    unfold enqueue
    rw [if_neg (by omega)]
    exact warnDrop_eventCh full t1 t2

/-- Witness of C3: three calls on an empty queue of capacity 2 keep the first two. -/
theorem enqueue_bounded_fifo_witness :
    (enqueueAll (sampleIng sampleCfg 2 []) [(ev1, 0, 0), (ev2, 1, 1), (ev3, 2, 2)]).eventCh.buf =
      [ev1, ev2] ∧
    (enqueueAll (sampleIng sampleCfg 2 []) [(ev1, 0, 0), (ev2, 1, 1), (ev3, 2, 2)]).eventCh.buf =
      ([(ev1, 0, 0), (ev2, 1, 1), (ev3, 2, 2)].map
        (fun c : AxiomEvent × Instant × Instant => c.1)).take
        (min [(ev1, (0 : Instant), (0 : Instant)), (ev2, 1, 1), (ev3, 2, 2)].length
          (sampleIng sampleCfg 2 []).eventCh.cap) :=
  ⟨by decide,
    (enqueue_bounded_fifo (sampleIng sampleCfg 2 []) rfl
      [(ev1, 0, 0), (ev2, 1, 1), (ev3, 2, 2)]).2.1⟩

/-! ## Delivery -/

theorem transient_retried (o : Outcome) (h : o.transient) : o.retried := by
  cases o with
  | transportError e => trivial
  | response c =>
      simp only [Outcome.transient] at h
      simp only [Outcome.retried]
      omega

theorem flushLoop_retried (env : Env) (ing : Ingestor) (batch : List AxiomEvent)
    (url : String) (body : Bytes) (attempt : Nat) (backoff : Duration)
    (rest : List Duration) (hu : env.newRequestErr url = none)
    (hr : (env.answer attempt).retried) :
    flushLoop env ing batch url body attempt (backoff :: rest) =
      (if backoff > 0 then [Effect.sleep backoff] else []) ++
        Effect.post (buildRequest ing url body) ::
          Effect.log (retryWarning (env.answer attempt) attempt) ::
            flushLoop env ing batch url body (attempt + 1) rest := by
  rw [flushLoop, hu]
  cases ho : env.answer attempt with
  | transportError e => simp [retryWarning]
  | response c =>
      rw [ho] at hr
      simp only [Outcome.retried] at hr
      simp only [retryWarning]
      rw [if_neg hr.1, if_neg hr.2]

theorem flushLoop_success (env : Env) (ing : Ingestor) (batch : List AxiomEvent)
    (url : String) (body : Bytes) (attempt : Nat) (backoff : Duration)
    (rest : List Duration) (hu : env.newRequestErr url = none)
    (hs : (env.answer attempt).success) :
    flushLoop env ing batch url body attempt (backoff :: rest) =
      (if backoff > 0 then [Effect.sleep backoff] else []) ++
        [Effect.post (buildRequest ing url body)] := by
  rw [flushLoop, hu]
  cases ho : env.answer attempt with
  | transportError e =>
      rw [ho] at hs
      exact absurd hs (by simp [Outcome.success])
  | response c =>
      rw [ho] at hs
      simp only [Outcome.success] at hs
      have hc : c ≥ 200 ∧ c < 300 := by omega
      simp only [if_pos hc]

theorem flushLoop_permanent (env : Env) (ing : Ingestor) (batch : List AxiomEvent)
    (url : String) (body : Bytes) (attempt : Nat) (backoff : Duration)
    (rest : List Duration) (hu : env.newRequestErr url = none) (c : Int)
    (ho : env.answer attempt = Outcome.response c) (hc : 400 ≤ c ∧ c ≤ 499) :
    flushLoop env ing batch url body attempt (backoff :: rest) =
      (if backoff > 0 then [Effect.sleep backoff] else []) ++
        [ Effect.post (buildRequest ing url body),
          Effect.log ⟨Level.error,
            [("status", FieldValue.int c), ("events", FieldValue.int batch.length)],
            "axiom: permanent ingest failure (4xx), not retrying"⟩ ] := by
  rw [flushLoop, hu]
  simp only [ho]
  have h2xx : ¬ (c ≥ 200 ∧ c < 300) := by omega
  have h4xx : c ≥ 400 ∧ c < 500 := by omega
  rw [if_neg h2xx, if_pos h4xx]

theorem posts_length_flushLoop (env : Env) (ing : Ingestor) (batch : List AxiomEvent)
    (url : String) (body : Bytes) (bs : List Duration) (attempt : Nat) :
    (posts (flushLoop env ing batch url body attempt bs)).length ≤ bs.length := by
  induction bs generalizing attempt with
  | nil => simp [flushLoop, posts]
  | cons b rest ih =>
      have hsleep : ∀ es : List Effect,
          posts ((if b > 0 then [Effect.sleep b] else []) ++ es) = posts es := by
        intro es
        split <;> simp [posts]
      rw [flushLoop, hsleep]
      cases env.newRequestErr url with
      | some e => simp [posts]
      | none =>
          cases env.answer attempt with
          | transportError e =>
              simp only [posts, List.length_cons]
              exact Nat.succ_le_succ (ih (attempt + 1))
          | response c =>
              simp only
              split
              · simp [posts]
              · split
                · simp [posts]
                · simp only [posts, List.length_cons]
                  exact Nat.succ_le_succ (ih (attempt + 1))

theorem posts_flushLoop_stop (env : Env) (ing : Ingestor) (batch : List AxiomEvent)
    (url : String) (body : Bytes) (bs : List Duration) (attempt k : Nat)
    (hk : attempt ≤ k) (hs : (env.answer k).success) :
    (posts (flushLoop env ing batch url body attempt bs)).length ≤ k + 1 - attempt := by
  induction bs generalizing attempt with
  | nil => simp [flushLoop, posts]
  | cons b rest ih =>
      have hsleep : ∀ es : List Effect,
          posts ((if b > 0 then [Effect.sleep b] else []) ++ es) = posts es := by
        intro es
        split <;> simp [posts]
      by_cases hu : env.newRequestErr url = none
      · by_cases hak : attempt = k
        · subst hak
          rw [flushLoop_success env ing batch url body attempt b rest hu hs, hsleep]
          simp [posts]
        · have hlt : attempt + 1 ≤ k := by omega
          have hrec := ih (attempt + 1) hlt
          rw [flushLoop, hsleep, hu]
          cases env.answer attempt with
          | transportError e =>
              simp only [posts, List.length_cons]
              omega
          | response c =>
              simp only
              split
              · simp only [posts, List.length_cons, List.length_nil]
                omega
              · split
                · simp only [posts, List.length_cons, List.length_nil]
                  omega
                · simp only [posts, List.length_cons]
                  omega
      · rw [flushLoop, hsleep]
        cases hnr : env.newRequestErr url with
        | none => exact absurd hnr hu
        | some e => simp [posts]

/-- C8: when the batch serializes and the request can be built, the first two
attempts end in a 5xx response or a transport error and the third in a 2xx
response, `flush` makes exactly three attempts, each with the same request
carrying the serialized batch, reports no failure, and sleeps 0, 1 and 2 seconds
before attempts 1, 2 and 3. In general, when attempt number k+1 would be
answered 2xx, at most k+1 attempts are made: none follows the first 2xx. -/
theorem flush_retry_then_success (env : Env) (ing : Ingestor) (batch : List AxiomEvent)
    (body : Bytes) (hm : env.marshal batch = Except.ok body)
    (hu : env.newRequestErr (ingestURL ing.cfg) = none)
    (h0 : (env.answer 0).transient) (h1 : (env.answer 1).transient)
    (h2 : (env.answer 2).success) :
    posts (flush env ing batch).effects =
      [ buildRequest ing (ingestURL ing.cfg) body,
        buildRequest ing (ingestURL ing.cfg) body,
        buildRequest ing (ingestURL ing.cfg) body ] ∧
    (buildRequest ing (ingestURL ing.cfg) body).body = body ∧
    attemptDelays 0 (flush env ing batch).effects = [0, 1 * second, 2 * second] ∧
    failures (flush env ing batch).effects = [] ∧
    ∀ (env1 : Env) (k : Nat), (env1.answer k).success →
      (posts (flush env1 ing batch).effects).length ≤ k + 1 := by
  refine ⟨?_, rfl, ?_, ?_, ?_⟩
  · simp only [flush, hm, backoffs]
    rw [flushLoop_retried _ _ _ _ _ _ _ _ hu (transient_retried _ h0),
      flushLoop_retried _ _ _ _ _ _ _ _ hu (transient_retried _ h1),
      flushLoop_success _ _ _ _ _ _ _ _ hu h2]
    simp [posts, second]
  · simp only [flush, hm, backoffs]
    rw [flushLoop_retried _ _ _ _ _ _ _ _ hu (transient_retried _ h0),
      flushLoop_retried _ _ _ _ _ _ _ _ hu (transient_retried _ h1),
      flushLoop_success _ _ _ _ _ _ _ _ hu h2]
    simp [attemptDelays, second]
  · simp only [flush, hm, backoffs]
    rw [flushLoop_retried _ _ _ _ _ _ _ _ hu (transient_retried _ h0),
      flushLoop_retried _ _ _ _ _ _ _ _ hu (transient_retried _ h1),
      flushLoop_success _ _ _ _ _ _ _ _ hu h2]
    cases env.answer 0 <;> cases env.answer 1 <;>
      simp [failures, retryWarning, second]
  · intro env1 k hs
    unfold flush
    cases env1.marshal batch with
    | error e => simp [posts]
    | ok b =>
        have h := posts_flushLoop_stop env1 ing batch (ingestURL ing.cfg) b backoffs 0 k
          (Nat.zero_le k) hs
        simpa using h

/-- Witness of C8: the endpoint answers 500, a transport error, then 200. -/
theorem flush_retry_then_success_witness :
    ((sampleEnv [Outcome.response 500, Outcome.transportError "reset",
        Outcome.response 200]).answer 0).transient ∧
    ((sampleEnv [Outcome.response 500, Outcome.transportError "reset",
        Outcome.response 200]).answer 2).success ∧
    (posts (flush (sampleEnv [Outcome.response 500, Outcome.transportError "reset",
        Outcome.response 200]) (Ingestor.init sampleCfg) [ev1, ev2]).effects).length = 3 ∧
    attemptDelays 0 (flush (sampleEnv [Outcome.response 500, Outcome.transportError "reset",
        Outcome.response 200]) (Ingestor.init sampleCfg) [ev1, ev2]).effects =
      [0, 1 * second, 2 * second] :=
  ⟨by decide, by decide,
    by
      rw [(flush_retry_then_success (sampleEnv [Outcome.response 500,
        Outcome.transportError "reset", Outcome.response 200]) (Ingestor.init sampleCfg)
        [ev1, ev2] [91, 93] rfl rfl (by decide) (by decide) (by decide)).1]
      rfl,
    (flush_retry_then_success (sampleEnv [Outcome.response 500,
      Outcome.transportError "reset", Outcome.response 200]) (Ingestor.init sampleCfg)
      [ev1, ev2] [91, 93] rfl rfl (by decide) (by decide) (by decide)).2.2.1⟩

/-- C9: when the batch serializes and the request can be built, the attempts
before attempt k+1 (k+1 at most 3) all end in a transport error or a 5xx
response, and attempt k+1 is answered with a status in 400..499, `flush` makes
exactly k+1 attempts and reports exactly one failure, the permanent one, which
carries that status code and the number of events of the batch. -/
theorem flush_4xx_permanent (env : Env) (ing : Ingestor) (batch : List AxiomEvent)
    (body : Bytes) (hm : env.marshal batch = Except.ok body)
    (hu : env.newRequestErr (ingestURL ing.cfg) = none)
    (k : Nat) (hk : k < 3) (hprev : ∀ j, j < k → (env.answer j).transient)
    (c : Int) (hans : env.answer k = Outcome.response c) (hc : 400 ≤ c ∧ c ≤ 499) :
    (posts (flush env ing batch).effects).length = k + 1 ∧
    failures (flush env ing batch).effects =
      [ ⟨Level.error,
          [("status", FieldValue.int c), ("events", FieldValue.int batch.length)],
          "axiom: permanent ingest failure (4xx), not retrying"⟩ ] ∧
    (flush env ing batch).effects.getLast? =
      some (Effect.log ⟨Level.error,
          [("status", FieldValue.int c), ("events", FieldValue.int batch.length)],
          "axiom: permanent ingest failure (4xx), not retrying"⟩) := by
  have hcases : k = 0 ∨ k = 1 ∨ k = 2 := by omega
  rcases hcases with rfl | rfl | rfl
  · simp only [flush, hm, backoffs]
    rw [flushLoop_permanent _ _ _ _ _ _ _ _ hu c hans hc]
    simp [posts, failures]
  · have h0 := transient_retried _ (hprev 0 (by omega))
    simp only [flush, hm, backoffs]
    rw [flushLoop_retried _ _ _ _ _ _ _ _ hu h0,
      flushLoop_permanent _ _ _ _ _ _ _ _ hu c hans hc]
    cases env.answer 0 <;> simp [posts, failures, retryWarning, second]
  · have h0 := transient_retried _ (hprev 0 (by omega))
    have h1 := transient_retried _ (hprev 1 (by omega))
    simp only [flush, hm, backoffs]
    rw [flushLoop_retried _ _ _ _ _ _ _ _ hu h0, flushLoop_retried _ _ _ _ _ _ _ _ hu h1,
      flushLoop_permanent _ _ _ _ _ _ _ _ hu c hans hc]
    cases env.answer 0 <;> cases env.answer 1 <;>
      simp [posts, failures, retryWarning, second]

/-- Witness of C9: an endpoint that answers 400 is contacted exactly once. -/
theorem flush_4xx_permanent_witness :
    (sampleEnv [Outcome.response 400]).answer 0 = Outcome.response 400 ∧
    (posts (flush (sampleEnv [Outcome.response 400]) (Ingestor.init sampleCfg)
      [ev1, ev2]).effects).length = 0 + 1 ∧
    failures (flush (sampleEnv [Outcome.response 400]) (Ingestor.init sampleCfg)
      [ev1, ev2]).effects =
      [ ⟨Level.error,
          [("status", FieldValue.int 400),
           ("events", FieldValue.int ([ev1, ev2] : List AxiomEvent).length)],
          "axiom: permanent ingest failure (4xx), not retrying"⟩ ] :=
  ⟨rfl,
    (flush_4xx_permanent (sampleEnv [Outcome.response 400]) (Ingestor.init sampleCfg)
      [ev1, ev2] [91, 93] rfl rfl 0 (by decide) (fun j hj => absurd hj (Nat.not_lt_zero j))
      400 rfl (by decide)).1,
    (flush_4xx_permanent (sampleEnv [Outcome.response 400]) (Ingestor.init sampleCfg)
      [ev1, ev2] [91, 93] rfl rfl 0 (by decide) (fun j hj => absurd hj (Nat.not_lt_zero j))
      400 rfl (by decide)).2.1⟩

/-- C10: `flush` never makes more than three attempts and never changes the
queue (nor any other field of the ingestor); when the batch serializes, the
request can be built and all three attempts end in a transport error or a 5xx
response, exactly three attempts are made and exactly one failure is reported,
the final one, whose event count is the length of the batch. -/
theorem flush_bounded_retry (env : Env) (ing : Ingestor) (batch : List AxiomEvent) :
    (posts (flush env ing batch).effects).length ≤ 3 ∧
    (flush env ing batch).ing.eventCh = ing.eventCh ∧
    (flush env ing batch).ing = ing ∧
    ∀ body : Bytes, env.marshal batch = Except.ok body →
      env.newRequestErr (ingestURL ing.cfg) = none →
      (env.answer 0).transient → (env.answer 1).transient → (env.answer 2).transient →
      (posts (flush env ing batch).effects).length = 3 ∧
      failures (flush env ing batch).effects =
        [ ⟨Level.error, [("events", FieldValue.int batch.length)],
            "axiom: failed to ingest batch after all retries"⟩ ] := by
  have hing : (flush env ing batch).ing = ing := by
    unfold flush
    split <;> rfl
  refine ⟨?_, by rw [hing], hing, ?_⟩
  · unfold flush
    cases env.marshal batch with
    | error e => simp [posts]
    | ok b =>
        exact posts_length_flushLoop env ing batch (ingestURL ing.cfg) b backoffs 0
  · intro body hm hu h0 h1 h2
    have r0 := transient_retried _ h0
    have r1 := transient_retried _ h1
    have r2 := transient_retried _ h2
    simp only [flush, hm, backoffs]
    rw [flushLoop_retried _ _ _ _ _ _ _ _ hu r0, flushLoop_retried _ _ _ _ _ _ _ _ hu r1,
      flushLoop_retried _ _ _ _ _ _ _ _ hu r2]
    cases env.answer 0 <;> cases env.answer 1 <;> cases env.answer 2 <;>
      simp [posts, failures, retryWarning, second, flushLoop]

/-- Witness of C10: an endpoint that always answers 503. -/
theorem flush_bounded_retry_witness :
    ((sampleEnv []).answer 0).transient ∧
    (posts (flush (sampleEnv []) (sampleIng sampleCfg 5 [ev3]) [ev1, ev2]).effects).length = 3 ∧
    failures (flush (sampleEnv []) (sampleIng sampleCfg 5 [ev3]) [ev1, ev2]).effects =
      [ ⟨Level.error, [("events", FieldValue.int ([ev1, ev2] : List AxiomEvent).length)],
          "axiom: failed to ingest batch after all retries"⟩ ] ∧
    (flush (sampleEnv []) (sampleIng sampleCfg 5 [ev3]) [ev1, ev2]).ing.eventCh.buf = [ev3] :=
  ⟨by decide,
    ((flush_bounded_retry (sampleEnv []) (sampleIng sampleCfg 5 [ev3]) [ev1, ev2]).2.2.2
      [91, 93] rfl rfl (by decide) (by decide) (by decide)).1,
    ((flush_bounded_retry (sampleEnv []) (sampleIng sampleCfg 5 [ev3]) [ev1, ev2]).2.2.2
      [91, 93] rfl rfl (by decide) (by decide) (by decide)).2,
    by rw [(flush_bounded_retry (sampleEnv []) (sampleIng sampleCfg 5 [ev3]) [ev1, ev2]).2.1]
       rfl⟩

/-! ## Flush loop -/

theorem flush_ing (env : Env) (ing : Ingestor) (batch : List AxiomEvent) :
    (flush env ing batch).ing = ing := by
  unfold flush
  split <;> rfl

theorem callFlush_eq (envs : Nat → Env) (p : Pipeline) (batch : List AxiomEvent) :
    p.callFlush envs batch =
      { p with
        flushed := p.flushed ++ [batch]
        effects := p.effects ++ (flush (envs p.flushed.length) p.ing batch).effects } := by
  simp [Pipeline.callFlush, flush_ing]

theorem drain_eq (q batch : List AxiomEvent) : drain batch q = (batch ++ q, []) := by
  induction q generalizing batch with
  | nil => simp [drain]
  | cons ev q ih => simp [drain, ih]

theorem flusherStart_inv (ing : Ingestor) : FlushInv (flusherStart ing) := by
  refine ⟨?_, ?_, ?_, ?_⟩
  · simp only [flusherStart, effBatchSize]
    split <;> omega
  · simp [flusherStart]
  · intro _
    simp only [flusherStart, effBatchSize]
    refine ⟨by simp, ?_, by simp⟩
    split
    · simp
    · simp only [List.length_nil, Nat.cast_zero]
      omega
  · simp [flusherStart]

theorem step_params (envs : Nat → Env) (p p1 : Pipeline) (x : Step)
    (hstep : step envs p x = some p1) :
    p1.batchSize = p.batchSize ∧ p1.interval = p.interval := by
  cases x with
  | enqueue ev t1 t2 =>
      simp only [step, Option.some.injEq] at hstep
      subst hstep
      exact ⟨rfl, rfl⟩
  | recv =>
      simp only [step] at hstep
      split at hstep
      · exact absurd hstep (by simp)
      · split at hstep
        · exact absurd hstep (by simp)
        · split at hstep <;>
          · simp only [Option.some.injEq] at hstep
            subst hstep
            exact ⟨rfl, rfl⟩
  | tick =>
      simp only [step] at hstep
      split at hstep
      · exact absurd hstep (by simp)
      · split at hstep <;>
        · simp only [Option.some.injEq] at hstep
          subst hstep
          exact ⟨rfl, rfl⟩
  | done =>
      simp only [step] at hstep
      split at hstep
      · exact absurd hstep (by simp)
      · simp only [Option.some.injEq] at hstep
        subst hstep
        split <;> exact ⟨rfl, rfl⟩

theorem step_inv (envs : Nat → Env) (p p1 : Pipeline) (x : Step) (hinv : FlushInv p)
    (hstep : step envs p x = some p1) : FlushInv p1 := by
  obtain ⟨hB, hne, hrun, hex⟩ := hinv
  cases x with
  | enqueue ev t1 t2 =>
      simp only [step, Option.some.injEq] at hstep
      subst hstep
      exact ⟨hB, hne, hrun, hex⟩
  | recv =>
      simp only [step] at hstep
      split at hstep
      · exact absurd hstep (by simp)
      · rename_i hnot
        have hnot : p.exited = false := by simpa using hnot
        obtain ⟨htaken, hlen, hbound⟩ := hrun hnot
        split at hstep
        · exact absurd hstep (by simp)
        · rename_i ev q hq
          split at hstep
          · rename_i hfull
            simp only [Option.some.injEq] at hstep
            subst hstep
            simp only [callFlush_eq]
            simp only [List.length_append, List.length_singleton, Nat.cast_add,
              Nat.cast_one] at hfull
            refine ⟨hB, ?_, ?_, ?_⟩
            · intro b hb
              simp only [List.mem_append, List.mem_singleton] at hb
              rcases hb with hb | hb
              · exact hne b hb
              · subst hb
                simp
            · intro _
              refine ⟨?_, ?_, ?_⟩
              · simp [htaken, List.flatten_append]
              · simp only [List.length_nil, Nat.cast_zero]
                omega
              · intro b hb
                simp only [List.mem_append, List.mem_singleton] at hb
                rcases hb with hb | hb
                · exact hbound b hb
                · subst hb
                  simp only [List.length_append, List.length_singleton, Nat.cast_add,
                    Nat.cast_one]
                  omega
            · intro h
              simp [hnot] at h
          · rename_i hfull
            simp only [Option.some.injEq] at hstep
            subst hstep
            simp only [List.length_append, List.length_singleton, Nat.cast_add,
              Nat.cast_one] at hfull
            refine ⟨hB, hne, ?_, ?_⟩
            · intro _
              refine ⟨?_, ?_, hbound⟩
              · simp [htaken]
              · simp only [List.length_append, List.length_singleton, Nat.cast_add,
                  Nat.cast_one]
                omega
            · intro h
              simp [hnot] at h
  | tick =>
      simp only [step] at hstep
      split at hstep
      · exact absurd hstep (by simp)
      · rename_i hnot
        have hnot : p.exited = false := by simpa using hnot
        obtain ⟨htaken, hlen, hbound⟩ := hrun hnot
        split at hstep
        · rename_i hpos
          simp only [Option.some.injEq] at hstep
          subst hstep
          simp only [callFlush_eq]
          refine ⟨hB, ?_, ?_, ?_⟩
          · intro b hb
            simp only [List.mem_append, List.mem_singleton] at hb
            rcases hb with hb | hb
            · exact hne b hb
            · subst hb
              exact List.ne_nil_of_length_pos hpos
          · intro _
            refine ⟨?_, ?_, ?_⟩
            · simp [htaken, List.flatten_append]
            · simp only [List.length_nil, Nat.cast_zero]
              omega
            · intro b hb
              simp only [List.mem_append, List.mem_singleton] at hb
              rcases hb with hb | hb
              · exact hbound b hb
              · subst hb
                show (p.batch.length : Int) ≤ p.batchSize
                omega
          · intro h
            simp [hnot] at h
        · simp only [Option.some.injEq] at hstep
          subst hstep
          exact ⟨hB, hne, hrun, hex⟩
  | done =>
      simp only [step] at hstep
      split at hstep
      · exact absurd hstep (by simp)
      · rename_i hnot
        have hnot : p.exited = false := by simpa using hnot
        obtain ⟨htaken, hlen, hbound⟩ := hrun hnot
        simp only [Option.some.injEq, drain_eq] at hstep
        subst hstep
        split
        · rename_i hpos
          simp only [callFlush_eq]
          refine ⟨hB, ?_, ?_, ?_⟩
          · intro b hb
            simp only [List.mem_append, List.mem_singleton] at hb
            rcases hb with hb | hb
            · exact hne b hb
            · subst hb
              exact List.ne_nil_of_length_pos hpos
          · intro h
            simp at h
          · intro _
            simp [htaken, List.flatten_append]
        · rename_i hzero
          refine ⟨hB, hne, ?_, ?_⟩
          · intro h
            simp at h
          · intro _
            have hnil : p.batch ++ p.ing.eventCh.buf = [] := by
              simpa using hzero
            simp only [List.append_eq_nil] at hnil
            simp [htaken, hnil.1, hnil.2]

theorem run_inv (envs : Nat → Env) (steps : List Step) (p p1 : Pipeline)
    (hinv : FlushInv p) (hrun : run envs p steps = some p1) :
    FlushInv p1 ∧ p1.batchSize = p.batchSize ∧ p1.interval = p.interval := by
  induction steps generalizing p with
  | nil =>
      simp only [run, Option.some.injEq] at hrun
      subst hrun
      exact ⟨hinv, rfl, rfl⟩
  | cons x xs ih =>
      simp only [run] at hrun
      cases hx : step envs p x with
      | none => simp [hx] at hrun
      | some p2 =>
          simp only [hx] at hrun
          have h := ih p2 (step_inv envs p p2 x hinv hx) hrun
          have hp := step_params envs p p2 x hx
          exact ⟨h.1, h.2.1.trans hp.1, h.2.2.trans hp.2⟩

theorem tickerOps_append (a b : List Effect) :
    tickerOps (a ++ b) = tickerOps a ++ tickerOps b := by
  simp [tickerOps, List.filter_append]

theorem tickerOps_flushLoop (env : Env) (ing : Ingestor) (batch : List AxiomEvent)
    (url : String) (body : Bytes) (bs : List Duration) (attempt : Nat) :
    tickerOps (flushLoop env ing batch url body attempt bs) = [] := by
  induction bs generalizing attempt with
  | nil => simp [flushLoop, tickerOps]
  | cons b rest ih =>
      have hsleep : tickerOps (if b > 0 then [Effect.sleep b] else []) = [] := by
        split <;> simp [tickerOps]
      rw [flushLoop, tickerOps_append, hsleep, List.nil_append]
      cases env.newRequestErr url with
      | some e => simp [tickerOps]
      | none =>
          have hcons : ∀ (r : Request) (es : List Effect),
              tickerOps (Effect.post r :: es) = tickerOps es := by
            intro r es
            simp [tickerOps]
          have hlog : ∀ (l : LogEntry) (es : List Effect),
              tickerOps (Effect.log l :: es) = tickerOps es := by
            intro l es
            simp [tickerOps]
          simp only [hcons]
          cases env.answer attempt with
          | transportError e =>
              simp only [hlog]
              exact ih (attempt + 1)
          | response c =>
              simp only
              split
              · simp [tickerOps]
              · split
                · simp [tickerOps]
                · simp only [hlog]
                  exact ih (attempt + 1)

theorem tickerOps_flush (env : Env) (ing : Ingestor) (batch : List AxiomEvent) :
    tickerOps (flush env ing batch).effects = [] := by
  unfold flush
  split
  · simp [tickerOps]
  · exact tickerOps_flushLoop _ _ _ _ _ _ _

theorem tickerOps_enqueue (ing : Ingestor) (ev : AxiomEvent) (t1 t2 : Instant) :
    tickerOps (enqueue ing ev t1 t2).effects = [] := by
  unfold enqueue warnDrop
  split
  · simp [tickerOps]
  · split <;> simp [tickerOps]

theorem step_sizeInv (envs : Nat → Env) (t0 : List AxiomEvent)
    (f0 : List (List AxiomEvent)) (e0 : List Effect) (p p1 : Pipeline) (x : Step)
    (hinv : SizeInv t0 f0 e0 p) (hfree : timerFree [x] = true)
    (hstep : step envs p x = some p1) :
    SizeInv t0 f0 e0 p1 ∧ p1.taken.length = p.taken.length + recvCount [x] := by
  obtain ⟨hnot, hB, nt, nf, ne, ht, hf, he, hnt, hlen, hall, htick⟩ := hinv
  cases x with
  | enqueue ev t1 t2 =>
      simp only [step, Option.some.injEq] at hstep
      subst hstep
      refine ⟨⟨hnot, hB, nt, nf, ne ++ (enqueue p.ing ev t1 t2).effects, ht, hf, ?_, hnt,
        hlen, hall, ?_⟩, by simp [recvCount]⟩
      · simp [he]
      · simp only [tickerOps_append, tickerOps_enqueue, List.append_nil]
        exact htick
  | recv =>
      simp only [step] at hstep
      split at hstep
      · exact absurd hstep (by simp)
      · split at hstep
        · exact absurd hstep (by simp)
        · rename_i ev q hq
          split at hstep
          · rename_i hfull
            simp only [Option.some.injEq] at hstep
            subst hstep
            simp only [callFlush_eq]
            simp only [List.length_append, List.length_singleton, Nat.cast_add,
              Nat.cast_one] at hfull
            refine ⟨⟨hnot, hB, nt ++ [ev], nf ++ [p.batch ++ [ev]],
              ne ++ ((flush (envs p.flushed.length)
                  { p.ing with eventCh := { p.ing.eventCh with buf := q } }
                  (p.batch ++ [ev])).effects ++ [Effect.tickerReset p.interval]),
              ?_, ?_, ?_, ?_, ?_, ?_, ?_⟩, by simp [recvCount]⟩
            · simp [ht]
            · simp [hf]
            · simp [he]
            · simp [hnt, List.flatten_append]
            · simp only [List.length_nil, Nat.cast_zero]
              omega
            · intro b hb
              simp only [List.mem_append, List.mem_singleton] at hb
              rcases hb with hb | hb
              · exact hall b hb
              · subst hb
                simp only [List.length_append, List.length_singleton, Nat.cast_add,
                  Nat.cast_one]
                omega
            · simp only [tickerOps_append, tickerOps_flush, List.nil_append, htick,
                List.length_append, List.length_singleton]
              simp [tickerOps, List.replicate_succ']
          · rename_i hfull
            simp only [Option.some.injEq] at hstep
            subst hstep
            simp only [List.length_append, List.length_singleton, Nat.cast_add,
              Nat.cast_one] at hfull
            refine ⟨⟨hnot, hB, nt ++ [ev], nf, ne, ?_, hf, he, ?_, ?_, hall, htick⟩,
              by simp [recvCount]⟩
            · simp [ht]
            · simp [hnt]
            · simp only [List.length_append, List.length_singleton, Nat.cast_add,
                Nat.cast_one]
              omega
  | tick => simp [timerFree] at hfree
  | done => simp [timerFree] at hfree

theorem timerFree_cons (x : Step) (xs : List Step) :
    timerFree (x :: xs) = (timerFree [x] && timerFree xs) := by
  cases x <;> simp [timerFree]

theorem recvCount_cons (x : Step) (xs : List Step) :
    recvCount (x :: xs) = recvCount [x] + recvCount xs := by
  cases x <;> simp [recvCount]
  omega

theorem run_sizeInv (envs : Nat → Env) (t0 : List AxiomEvent)
    (f0 : List (List AxiomEvent)) (e0 : List Effect) (steps : List Step) (p p1 : Pipeline)
    (hinv : SizeInv t0 f0 e0 p) (hfree : timerFree steps = true)
    (hrun : run envs p steps = some p1) :
    SizeInv t0 f0 e0 p1 ∧ p1.taken.length = p.taken.length + recvCount steps ∧
      p1.batchSize = p.batchSize ∧ p1.interval = p.interval := by
  induction steps generalizing p with
  | nil =>
      simp only [run, Option.some.injEq] at hrun
      subst hrun
      exact ⟨hinv, by simp [recvCount], rfl, rfl⟩
  | cons x xs ih =>
      rw [timerFree_cons, Bool.and_eq_true] at hfree
      simp only [run] at hrun
      cases hx : step envs p x with
      | none => simp [hx] at hrun
      | some p2 =>
          simp only [hx] at hrun
          have h1 := step_sizeInv envs t0 f0 e0 p p2 x hinv hfree.1 hx
          have hp := step_params envs p p2 x hx
          have h := ih p2 h1.1 hfree.2 hrun
          refine ⟨h.1, ?_, h.2.2.1.trans hp.1, h.2.2.2.trans hp.2⟩
          have hc := recvCount_cons x xs
          omega

theorem length_flatten_of_all (n : Nat) (L : List (List AxiomEvent))
    (h : ∀ b ∈ L, b.length = n) : L.flatten.length = L.length * n := by
  induction L with
  | nil => simp
  | cons b rest ih =>
      have hb : b.length = n := h b (List.mem_cons_self b rest)
      have hrest := ih (fun c hc => h c (List.mem_cons_of_mem b hc))
      simp only [List.flatten_cons, List.length_append, List.length_cons, hb, hrest]
      rw [Nat.add_mul]
      omega

theorem mul_add_eq_self (k n r : Nat) (h : k * n + r = n) (hr : r < n) : k = 1 ∧ r = 0 := by
  rcases k with _ | _ | k
  · omega
  · constructor
    · rfl
    · have : (0 + 1) * n = n := by simp
      omega
  · exfalso
    have : (k + 1 + 1) * n = k * n + n + n := by ring
    omega

theorem mul_add_eq_succ (k n r : Nat) (h : k * n + r = n + 1) (hr : r < n) (h2 : 2 ≤ n) :
    k = 1 ∧ r = 1 := by
  rcases k with _ | _ | k
  · omega
  · constructor
    · rfl
    · have : (0 + 1) * n = n := by simp
      omega
  · exfalso
    have : (k + 1 + 1) * n = k * n + n + n := by ring
    omega

/-- C4 (amended): let B be the effective batch size and take any state the
running loop can reach from its start in which the current batch is empty. After
any further steps without timer fire or shutdown in which the loop receives B
events, exactly one more flush has occurred, it holds exactly those B events in
arrival order, the current batch is empty and the ticker has been reset once, to
the full flush interval. After B+1 received events and B at least 2, still only
the first B of them have been flushed and the current batch holds just the last
one; for B = 1 the second event has been flushed too, as a batch of its own, and
the current batch is empty. -/
theorem size_triggered_flush (envs : Nat → Env) (ing : Ingestor) (n : Nat)
    (hn : (n : Int) = effBatchSize ing.cfg) (pre steps : List Step) (p0 p : Pipeline)
    (hpre : run envs (flusherStart ing) pre = some p0)
    (hlive : p0.exited = false) (hempty : p0.batch = [])
    (hfree : timerFree steps = true) (hrun : run envs p0 steps = some p) :
    ∃ (evs : List AxiomEvent) (ne : List Effect),
      p.taken = p0.taken ++ evs ∧ evs.length = recvCount steps ∧
      p.effects = p0.effects ++ ne ∧
      (recvCount steps = n →
        p.flushed = p0.flushed ++ [evs] ∧ p.batch = [] ∧
        tickerOps ne = [Effect.tickerReset (flushInterval ing.cfg)]) ∧
      (recvCount steps = n + 1 → 2 ≤ n →
        p.flushed = p0.flushed ++ [evs.take n] ∧ p.batch = evs.drop n ∧
        p.batch.length = 1) ∧
      (recvCount steps = n + 1 → n = 1 →
        p.flushed = p0.flushed ++ [evs.take 1, evs.drop 1] ∧ p.batch = []) := by
  obtain ⟨hinv0, hbs0, hint0⟩ :=
    run_inv envs pre (flusherStart ing) p0 (flusherStart_inv ing) hpre
  have hstart : SizeInv p0.taken p0.flushed p0.effects p0 := by
    refine ⟨hlive, hinv0.1, [], [], [], by simp, by simp, by simp, by simp [hempty], ?_,
      by simp, by simp [tickerOps]⟩
    rw [hempty]
    have := hinv0.1
    simp only [List.length_nil, Nat.cast_zero]
    omega
  obtain ⟨⟨hnot, hB, evs, nf, ne, ht, hf, he, hnt, hlen, hall, htick⟩, hcount, hbs, hint⟩ :=
    run_sizeInv envs p0.taken p0.flushed p0.effects steps p0 p hstart hfree hrun
  have hbs1 : p.batchSize = (n : Int) := by
    rw [hbs, hbs0, hn]
    rfl
  have hint1 : p.interval = flushInterval ing.cfg := by
    rw [hint, hint0]
    rfl
  have hcount1 : evs.length = recvCount steps := by
    have := congrArg List.length ht
    rw [List.length_append] at this
    omega
  have hall1 : ∀ b ∈ nf, b.length = n := by
    intro b hb
    have := hall b hb
    omega
  have hflat := length_flatten_of_all n nf hall1
  have hsum : evs.length = nf.length * n + p.batch.length := by
    rw [hnt, List.length_append, hflat]
  have hr : p.batch.length < n := by omega
  refine ⟨evs, ne, ht, hcount1, he, ?_, ?_, ?_⟩
  · intro hc
    obtain ⟨hk, hr0⟩ := mul_add_eq_self nf.length n p.batch.length (by omega) hr
    obtain ⟨b, hb⟩ := List.length_eq_one.mp hk
    have hbatch : p.batch = [] := List.eq_nil_of_length_eq_zero hr0
    refine ⟨?_, hbatch, ?_⟩
    · rw [hf, hnt, hb, hbatch]
      simp
    · rw [htick, hk, hint1]
      rfl
  · intro hc h2
    obtain ⟨hk, hr1⟩ := mul_add_eq_succ nf.length n p.batch.length (by omega) hr h2
    obtain ⟨b, hb⟩ := List.length_eq_one.mp hk
    have hbn : b.length = n := hall1 b (by simp [hb])
    have hev : evs = b ++ p.batch := by
      rw [hnt, hb]
      simp
    refine ⟨?_, ?_, hr1⟩
    · rw [hf, hb, hev, List.take_left' hbn]
    · rw [hev, List.drop_left' hbn]
  · intro hc h1
    subst h1
    have hk : nf.length = 2 := by omega
    have hr0 : p.batch.length = 0 := by omega
    have hbatch : p.batch = [] := List.eq_nil_of_length_eq_zero hr0
    obtain ⟨b1, b2, hb⟩ := List.length_eq_two.mp hk
    have hb1 : b1.length = 1 := hall1 b1 (by simp [hb])
    have hev : evs = b1 ++ b2 := by
      rw [hnt, hb, hbatch]
      simp
    refine ⟨?_, hbatch⟩
    rw [hf, hb, hev, List.take_left' hb1, List.drop_left' hb1]

/-- Counterexample to C4 as stated: with a batch size of 1, after B+1 = 2
received events the second event has already been flushed (two flushes, empty
current batch), so the second batch is not left holding the remaining event. -/
theorem size_triggered_flush_counterexample :
    effBatchSize (sampleIng (cfgWithBatch 1) 10000 [ev1, ev2]).cfg = 1 ∧
    (run okEnvs (flusherStart (sampleIng (cfgWithBatch 1) 10000 [ev1, ev2]))
      [Step.recv, Step.recv]).map (fun p => (p.flushed, p.batch)) =
      some ([[ev1], [ev2]], []) ∧
    (run okEnvs (flusherStart (sampleIng (cfgWithBatch 1) 10000 [ev1, ev2]))
      [Step.recv, Step.recv]).map (fun p => (p.flushed, p.batch)) ≠
      some ([[ev1]], [ev2]) := by
  decide

/-- Witness of C4 (amended): batch size 2; one batch has already been flushed,
then two more events are received. -/
theorem size_triggered_flush_witness :
    ∃ p0 p evs,
      run okEnvs (flusherStart (sampleIng (cfgWithBatch 2) 10000 [ev1, ev2, ev3, ev1]))
        [Step.recv, Step.recv] = some p0 ∧ p0.flushed = [[ev1, ev2]] ∧
      run okEnvs p0 [Step.recv, Step.enqueue ev2 0 0, Step.recv] = some p ∧
      p.taken = p0.taken ++ evs ∧ p.flushed = p0.flushed ++ [evs] ∧ p.batch = [] := by
  obtain ⟨p0, hp0⟩ : ∃ p0, run okEnvs
      (flusherStart (sampleIng (cfgWithBatch 2) 10000 [ev1, ev2, ev3, ev1]))
      [Step.recv, Step.recv] = some p0 := ⟨_, rfl⟩
  have h0 : (run okEnvs (flusherStart (sampleIng (cfgWithBatch 2) 10000 [ev1, ev2, ev3, ev1]))
      [Step.recv, Step.recv]).map (fun q => (q.flushed, q.batch, q.exited)) =
      some ([[ev1, ev2]], [], false) := by decide
  rw [hp0] at h0
  simp only [Option.map_some', Option.some.injEq, Prod.mk.injEq] at h0
  obtain ⟨p, hp⟩ : ∃ p, run okEnvs p0 [Step.recv, Step.enqueue ev2 0 0, Step.recv] = some p := by
    have h1 : (run okEnvs (flusherStart (sampleIng (cfgWithBatch 2) 10000 [ev1, ev2, ev3, ev1]))
        ([Step.recv, Step.recv] ++ [Step.recv, Step.enqueue ev2 0 0, Step.recv])).isSome =
        true := by decide
    have happ : ∀ (a b : List Step) (q : Pipeline),
        run okEnvs q (a ++ b) = (run okEnvs q a).bind (fun r => run okEnvs r b) := by
      intro a b
      induction a with
      | nil => intro q; rfl
      | cons x xs ih =>
          intro q
          simp only [List.cons_append, run]
          cases step okEnvs q x with
          | none => rfl
          | some r => exact ih r
    rw [happ, hp0] at h1
    exact Option.isSome_iff_exists.mp h1
  obtain ⟨evs, ne, ht, _, _, hB, _, _⟩ :=
    size_triggered_flush okEnvs (sampleIng (cfgWithBatch 2) 10000 [ev1, ev2, ev3, ev1]) 2
      (by decide) [Step.recv, Step.recv] [Step.recv, Step.enqueue ev2 0 0, Step.recv] p0 p
      hp0 h0.2.2 h0.2.1 (by decide) hp
  exact ⟨p0, p, evs, hp0, h0.1, hp, ht, (hB (by decide)).1, (hB (by decide)).2.1⟩

/-- C5 (amended): in every state the running loop can reach from its start, the
current batch is exactly the events received since the last flush, in arrival
order, and is shorter than the batch size. When it is non-empty and the timer
fires, exactly one flush occurs, of exactly that batch, and the current batch
becomes empty, while the queue is left as it is (events enqueued but not yet
received are not part of the flush). When it is empty and the timer fires, the
state is unchanged: no flush and no request. -/
theorem timer_triggered_flush (envs : Nat → Env) (ing : Ingestor) (steps : List Step)
    (p : Pipeline) (hrun : run envs (flusherStart ing) steps = some p)
    (hlive : p.exited = false) :
    p.taken = p.flushed.flatten ++ p.batch ∧
    (p.batch.length : Int) < effBatchSize ing.cfg ∧
    (p.batch ≠ [] →
      ∃ p1, step envs p Step.tick = some p1 ∧ p1.flushed = p.flushed ++ [p.batch] ∧
        p1.batch = [] ∧ p1.ing = p.ing ∧ p1.taken = p.taken ∧ p1.exited = false ∧
        p1.effects = p.effects ++ (flush (envs p.flushed.length) p.ing p.batch).effects) ∧
    (p.batch = [] → step envs p Step.tick = some p) := by
  obtain ⟨hinv, hbs, _⟩ := run_inv envs steps (flusherStart ing) p (flusherStart_inv ing) hrun
  obtain ⟨htaken, hlen, _⟩ := hinv.2.2.1 hlive
  refine ⟨htaken, ?_, ?_, ?_⟩
  · rw [hbs] at hlen
    exact hlen
  · intro hne
    have hpos : p.batch.length > 0 := List.length_pos.mpr hne
    refine ⟨{ p.callFlush envs p.batch with batch := [] }, ?_, ?_, rfl, ?_, ?_, ?_, ?_⟩
    · simp [step, hlive, hpos]
    · simp [callFlush_eq]
    · simp [callFlush_eq]
    · simp [callFlush_eq]
    · simpa [callFlush_eq] using hlive
    · simp [callFlush_eq]
  · intro hnil
    simp [step, hlive, hnil]

/-- Counterexample to C5 as stated: the first event is received and flushed by a
timer fire; a second event is enqueued while the loop is busy, so that queue and
ticker are both ready and the loop takes the ticker case. One event (fewer than
the batch size 100) has been enqueued and the timer fires, yet no flush occurs:
the event stays in the queue. -/
theorem timer_triggered_flush_counterexample :
    (run okEnvs (flusherStart (Ingestor.init sampleCfg))
      [Step.enqueue ev1 0 0, Step.recv, Step.tick, Step.enqueue ev2 0 0]).map
        (fun p => (p.flushed, p.batch, p.ing.eventCh.buf)) = some ([[ev1]], [], [ev2]) ∧
    (run okEnvs (flusherStart (Ingestor.init sampleCfg))
      [Step.enqueue ev1 0 0, Step.recv, Step.tick, Step.enqueue ev2 0 0, Step.tick]).map
        (fun p => (p.flushed, p.batch, p.ing.eventCh.buf)) = some ([[ev1]], [], [ev2]) ∧
    (run okEnvs (flusherStart (Ingestor.init sampleCfg))
      [Step.enqueue ev1 0 0, Step.recv, Step.tick, Step.enqueue ev2 0 0, Step.tick]).map
        (fun p => p.flushed) ≠ some [[ev1], [ev2]] := by
  decide

/-- Witness of C5 (amended): one event received, then the timer fires. -/
theorem timer_triggered_flush_witness :
    ∃ p p1, run okEnvs (flusherStart (Ingestor.init sampleCfg))
        [Step.enqueue ev1 0 0, Step.recv] = some p ∧ p.batch = [ev1] ∧
      step okEnvs p Step.tick = some p1 ∧ p1.flushed = p.flushed ++ [p.batch] ∧
      p1.batch = [] := by
  obtain ⟨p, hp⟩ : ∃ p, run okEnvs (flusherStart (Ingestor.init sampleCfg))
      [Step.enqueue ev1 0 0, Step.recv] = some p := ⟨_, rfl⟩
  have hb : (run okEnvs (flusherStart (Ingestor.init sampleCfg))
      [Step.enqueue ev1 0 0, Step.recv]).map (fun q => (q.batch, q.exited)) =
      some ([ev1], false) := by decide
  rw [hp] at hb
  simp only [Option.map_some', Option.some.injEq, Prod.mk.injEq] at hb
  obtain ⟨p1, h1, h2, h3, _⟩ :=
    (timer_triggered_flush okEnvs (Ingestor.init sampleCfg)
      [Step.enqueue ev1 0 0, Step.recv] p hp hb.2).2.2.1 (by simp [hb.1])
  exact ⟨p, p1, hp, hb.1, h1, h2, h3⟩

/-- C6: when the running loop takes the shutdown case with an empty current
batch and K events in the queue, it makes exactly one more flush, of all K
events in queue order, when K is positive, and no flush at all (and no request)
when K is zero; the queue is empty afterwards and the loop has returned, so none
of its cases runs again. -/
theorem shutdown_drain (envs : Nat → Env) (p : Pipeline) (hlive : p.exited = false)
    (hbatch : p.batch = []) :
    ∃ p1, step envs p Step.done = some p1 ∧
      (p.ing.eventCh.buf ≠ [] → p1.flushed = p.flushed ++ [p.ing.eventCh.buf]) ∧
      (p.ing.eventCh.buf = [] → p1.flushed = p.flushed ∧
        posts p1.effects = posts p.effects) ∧
      p1.taken = p.taken ++ p.ing.eventCh.buf ∧
      p1.ing.eventCh.buf = [] ∧ p1.ing.eventCh.cap = p.ing.eventCh.cap ∧
      p1.exited = true ∧
      step envs p1 Step.recv = none ∧ step envs p1 Step.tick = none ∧
      step envs p1 Step.done = none := by
  cases hq : p.ing.eventCh.buf with
  | nil =>
      refine ⟨_, by
        simp only [step, hlive, drain_eq, hbatch, hq]
        rfl, ?_, ?_, ?_, ?_, ?_, ?_, ?_, ?_, ?_⟩
      · intro h
        exact absurd rfl h
      · intro _
        refine ⟨rfl, ?_⟩
        have happ : ∀ a b : List Effect, posts (a ++ b) = posts a ++ posts b := by
          intro a b
          induction a with
          | nil => rfl
          | cons e es ih => cases e <;> simp [posts, ih]
        simp [happ, posts]
      · simp
      · rfl
      · rfl
      · rfl
      · simp [step]
      · simp [step]
      · simp [step]
  | cons ev q =>
      refine ⟨_, by
        simp only [step, hlive, drain_eq, hbatch, hq]
        rfl, ?_, ?_, ?_, ?_, ?_, ?_, ?_, ?_, ?_⟩
      · intro _
        simp [callFlush_eq]
      · intro h
        exact absurd h (by simp)
      · simp [callFlush_eq]
      · simp [callFlush_eq]
      · simp [callFlush_eq]
      · simp [callFlush_eq]
      · simp [step, callFlush_eq]
      · simp [step, callFlush_eq]
      · simp [step, callFlush_eq]

/-- Witness of C6: two events wait in the queue when the shutdown is observed. -/
theorem shutdown_drain_witness :
    (flusherStart (sampleIng sampleCfg 10000 [ev1, ev2])).batch = [] ∧
    ∃ p1, step okEnvs (flusherStart (sampleIng sampleCfg 10000 [ev1, ev2])) Step.done =
        some p1 ∧
      p1.flushed = [[ev1, ev2]] ∧ p1.ing.eventCh.buf = [] ∧ p1.exited = true := by
  obtain ⟨p1, h1, h2, _, _, h5, _, h7, _⟩ :=
    shutdown_drain okEnvs (flusherStart (sampleIng sampleCfg 10000 [ev1, ev2])) rfl rfl
  exact ⟨rfl, p1, h1, h2 (by decide), h5, h7⟩

/-- C7 (amended): in every state the running loop can reach from its start,
every batch handed to `flush` so far (by an event arrival or a timer fire) holds
at least one and at most B events, B being the effective batch size, and the
current batch holds fewer than B. The shutdown case then hands over at most one
more batch: the current batch followed by every event drained from the queue,
whose length is bounded by B - 1 plus the number of drained events, not by B. -/
theorem batch_size_bound (envs : Nat → Env) (ing : Ingestor) (steps : List Step)
    (p : Pipeline) (hrun : run envs (flusherStart ing) steps = some p)
    (hlive : p.exited = false) :
    (∀ b ∈ p.flushed, 1 ≤ b.length ∧ (b.length : Int) ≤ effBatchSize ing.cfg) ∧
    (p.batch.length : Int) < effBatchSize ing.cfg ∧
    ∃ p1, step envs p Step.done = some p1 ∧
      (p1.flushed = p.flushed ∨ p1.flushed = p.flushed ++ [p.batch ++ p.ing.eventCh.buf]) := by
  obtain ⟨hinv, hbs, _⟩ := run_inv envs steps (flusherStart ing) p (flusherStart_inv ing) hrun
  obtain ⟨_, hlen, hbound⟩ := hinv.2.2.1 hlive
  rw [hbs] at hlen hbound
  refine ⟨?_, hlen, ?_⟩
  · intro b hb
    refine ⟨?_, hbound b hb⟩
    have hne := hinv.2.1 b hb
    exact List.length_pos.mpr hne
  · by_cases hz : (p.batch ++ p.ing.eventCh.buf).length > 0
    · refine ⟨_, by
        simp only [step, hlive, drain_eq]
        rfl, Or.inr ?_⟩
      split
      · simp [callFlush_eq]
      · rename_i h
        exact absurd hz h
    · refine ⟨_, by
        simp only [step, hlive, drain_eq]
        rfl, Or.inl ?_⟩
      split
      · rename_i h
        exact absurd h hz
      · rfl

/-- Counterexample to C7 as stated: with a batch size of 2, three events are in
the queue when the shutdown signal is taken; the final batch handed to `flush`
holds all three. -/
theorem batch_size_bound_counterexample :
    effBatchSize (cfgWithBatch 2) = 2 ∧
    (run okEnvs (flusherStart (Ingestor.init (cfgWithBatch 2)))
      [Step.enqueue ev1 0 0, Step.enqueue ev2 0 0, Step.enqueue ev3 0 0, Step.done]).map
        (fun p => p.flushed) = some [[ev1, ev2, ev3]] ∧
    ¬ (([ev1, ev2, ev3] : List AxiomEvent).length : Int) ≤ effBatchSize (cfgWithBatch 2) := by
  decide

/-- Witness of C7 (amended): batch size 2, three events received, a timer fire. -/
theorem batch_size_bound_witness :
    ∃ p, run okEnvs (flusherStart (sampleIng (cfgWithBatch 2) 10000 [ev1, ev2, ev3]))
        [Step.recv, Step.recv, Step.recv, Step.tick] = some p ∧
      p.flushed = [[ev1, ev2], [ev3]] ∧
      ∀ b ∈ p.flushed, 1 ≤ b.length ∧ (b.length : Int) ≤ effBatchSize (cfgWithBatch 2) := by
  obtain ⟨p, hp⟩ : ∃ p, run okEnvs
      (flusherStart (sampleIng (cfgWithBatch 2) 10000 [ev1, ev2, ev3]))
      [Step.recv, Step.recv, Step.recv, Step.tick] = some p := ⟨_, rfl⟩
  have hb : (run okEnvs (flusherStart (sampleIng (cfgWithBatch 2) 10000 [ev1, ev2, ev3]))
      [Step.recv, Step.recv, Step.recv, Step.tick]).map (fun q => (q.flushed, q.exited)) =
      some ([[ev1, ev2], [ev3]], false) := by decide
  rw [hp] at hb
  simp only [Option.map_some', Option.some.injEq, Prod.mk.injEq] at hb
  exact ⟨p, hp, hb.1,
    (batch_size_bound okEnvs (sampleIng (cfgWithBatch 2) 10000 [ev1, ev2, ev3])
      [Step.recv, Step.recv, Step.recv, Step.tick] p hp hb.2).1⟩

/-! ## Drop warnings -/

theorem mem_keys_optional (c : Prop) [Decidable c] (k x : String) (v : JsonValue) :
    x ∈ (if c then [] else [(k, v)]).map (fun kv : String × JsonValue => kv.1) ↔
      ¬ c ∧ x = k := by
  split <;> simp_all

theorem jsonKeys_mem (ev : AxiomEvent) (x : String) :
    x ∈ ev.jsonKeys ↔
      x = "_time" ∨ x = "event_type" ∨ x = "server_id" ∨
      (ev.Status ≠ "" ∧ x = "status") ∨ (ev.Line ≠ "" ∧ x = "line") ∨
      (ev.MemoryBytes ≠ 0 ∧ x = "memory_bytes") ∨
      (ev.MemoryLimitBytes ≠ 0 ∧ x = "memory_limit_bytes") ∨
      (ev.CpuAbsolute ≠ 0 ∧ x = "cpu_absolute") ∨
      (ev.NetworkRxBytes ≠ 0 ∧ x = "network_rx_bytes") ∨
      (ev.NetworkTxBytes ≠ 0 ∧ x = "network_tx_bytes") ∨
      (ev.Uptime ≠ 0 ∧ x = "uptime") ∨ (ev.DiskBytes ≠ 0 ∧ x = "disk_bytes") ∨
      (ev.State ≠ "" ∧ x = "state") := by
  unfold AxiomEvent.jsonKeys AxiomEvent.jsonFields
  simp only [List.map_append, List.mem_append, mem_keys_optional]
  simp only [List.map_cons, List.map_nil, List.mem_cons, List.mem_singleton, List.mem_nil_iff,
    or_false, ne_eq, or_assoc]

/-- C12: for every source id, when the envelope of a message decodes with the
stats topic and its payload decodes to memory 100, limit 200, cpu 0.5, rx 10,
tx 20, uptime 5, disk 1000 and no state, `processEvent` hands to `enqueue`
exactly the stats event of that payload (which enters a queue that has room),
and the JSON object of that event consists of `_time`, `event_type`,
`server_id` and the seven metric members with those values; it has no `status`,
`line` or `state` member. For every stats payload the event has no `status` and
no `line` member, and has a metric member exactly when the value is not zero. -/
theorem stats_serialization (d : Decoding) (ing : Ingestor) (serverID : String)
    (data : Bytes) (now : String) (t1 t2 : Instant) (topic : String)
    (henv : d.decodeEvent data = Except.ok ⟨d.StatsEvent⟩)
    (hstats : d.decodeStats data =
      Except.ok ⟨topic, ⟨100, 200, 1 / 2, ⟨10, 20⟩, 5, 1000, none⟩⟩) :
    processEvent d ing serverID data now t1 t2 =
      enqueue ing
        (statsAxiomEvent now serverID ⟨topic, ⟨100, 200, 1 / 2, ⟨10, 20⟩, 5, 1000, none⟩⟩)
        t1 t2 ∧
    (ing.eventCh.buf.length < ing.eventCh.cap →
      (processEvent d ing serverID data now t1 t2).ing.eventCh.buf =
        ing.eventCh.buf ++
          [statsAxiomEvent now serverID
            ⟨topic, ⟨100, 200, 1 / 2, ⟨10, 20⟩, 5, 1000, none⟩⟩]) ∧
    (statsAxiomEvent now serverID
        ⟨topic, ⟨100, 200, 1 / 2, ⟨10, 20⟩, 5, 1000, none⟩⟩).jsonFields =
      [ ("_time", JsonValue.str now), ("event_type", JsonValue.str "stats"),
        ("server_id", JsonValue.str serverID), ("memory_bytes", JsonValue.uint 100),
        ("memory_limit_bytes", JsonValue.uint 200), ("cpu_absolute", JsonValue.float (1 / 2)),
        ("network_rx_bytes", JsonValue.uint 10), ("network_tx_bytes", JsonValue.uint 20),
        ("uptime", JsonValue.int 5), ("disk_bytes", JsonValue.int 1000) ] ∧
    ∀ (stats : statsEventData) (now1 id1 : String),
      "status" ∉ (statsAxiomEvent now1 id1 stats).jsonKeys ∧
      "line" ∉ (statsAxiomEvent now1 id1 stats).jsonKeys ∧
      ("memory_bytes" ∈ (statsAxiomEvent now1 id1 stats).jsonKeys ↔ stats.Data.Memory ≠ 0) ∧
      ("memory_limit_bytes" ∈ (statsAxiomEvent now1 id1 stats).jsonKeys ↔
        stats.Data.MemoryLimit ≠ 0) ∧
      ("cpu_absolute" ∈ (statsAxiomEvent now1 id1 stats).jsonKeys ↔
        stats.Data.CpuAbsolute ≠ 0) ∧
      ("network_rx_bytes" ∈ (statsAxiomEvent now1 id1 stats).jsonKeys ↔
        stats.Data.Network.RxBytes ≠ 0) ∧
      ("network_tx_bytes" ∈ (statsAxiomEvent now1 id1 stats).jsonKeys ↔
        stats.Data.Network.TxBytes ≠ 0) ∧
      ("uptime" ∈ (statsAxiomEvent now1 id1 stats).jsonKeys ↔ stats.Data.Uptime ≠ 0) ∧
      ("disk_bytes" ∈ (statsAxiomEvent now1 id1 stats).jsonKeys ↔ stats.Data.Disk ≠ 0) := by
  have hproc : processEvent d ing serverID data now t1 t2 =
      enqueue ing
        (statsAxiomEvent now serverID ⟨topic, ⟨100, 200, 1 / 2, ⟨10, 20⟩, 5, 1000, none⟩⟩)
        t1 t2 := by
    simp [processEvent, henv, hstats]
  refine ⟨hproc, ?_, ?_, ?_⟩
  · intro hroom
    rw [hproc, enqueue_buf, if_pos hroom]
  · simp [AxiomEvent.jsonFields, statsAxiomEvent]
  · intro stats now1 id1
    simp only [jsonKeys_mem]
    simp [statsAxiomEvent]

/-- Witness of C12: the sample stats message of server `srv` on an empty queue. -/
theorem stats_serialization_witness :
    sampleDecoding.decodeEvent [1, 1] = Except.ok ⟨sampleDecoding.StatsEvent⟩ ∧
    (processEvent sampleDecoding (Ingestor.init sampleCfg) "srv" [1, 1] "t0" 0 0).ing.eventCh.buf =
      [statsAxiomEvent "t0" "srv" ⟨"stats", ⟨100, 200, 1 / 2, ⟨10, 20⟩, 5, 1000, none⟩⟩] ∧
    (statsAxiomEvent "t0" "srv"
        ⟨"stats", ⟨100, 200, 1 / 2, ⟨10, 20⟩, 5, 1000, none⟩⟩).jsonKeys =
      ["_time", "event_type", "server_id", "memory_bytes", "memory_limit_bytes",
        "cpu_absolute", "network_rx_bytes", "network_tx_bytes", "uptime", "disk_bytes"] :=
  ⟨rfl,
    (stats_serialization sampleDecoding (Ingestor.init sampleCfg) "srv" [1, 1] "t0" 0 0
      "stats" rfl rfl).2.1 (by decide),
    by
      unfold AxiomEvent.jsonKeys
      rw [(stats_serialization sampleDecoding (Ingestor.init sampleCfg) "srv" [1, 1] "t0" 0 0
        "stats" rfl rfl).2.2.1]
      rfl⟩

/-! ## Construction -/

theorem spawned_append (a b : List Effect) : spawned (a ++ b) = spawned a ++ spawned b := by
  induction a with
  | nil => rfl
  | cons e es ih => cases e <;> simp [spawned, ih]

theorem subscribeExisting_spec (all : List Server) (ing : Ingestor) :
    (subscribeExisting ing all).1.cfg = ing.cfg ∧
    (subscribeExisting ing all).1.eventCh = ing.eventCh ∧
    (∀ id : String, id ∈ (subscribeExisting ing all).1.subscribedServers ↔
      id ∈ ing.subscribedServers ∨ ∃ s ∈ all, s.ID = id) ∧
    (∀ id : String, id ∈ spawned (subscribeExisting ing all).2 ↔
      id ∉ ing.subscribedServers ∧ ∃ s ∈ all, s.ID = id) ∧
    (∀ e ∈ (subscribeExisting ing all).2, e ≠ Effect.onServerAdd ∧ e ≠ Effect.goFlusher) := by
  induction all generalizing ing with
  | nil => simp [subscribeExisting, spawned]
  | cons s rest ih =>
      obtain ⟨h1, h2, h3, h4, h5⟩ := ih (trySubscribe ing s).ing
      have hsub := trySubscribe_subscribed ing s
      have hsp := spawned_trySubscribe ing s
      have hcfg : (trySubscribe ing s).ing.cfg = ing.cfg := by
        unfold trySubscribe
        split <;> rfl
      have hch : (trySubscribe ing s).ing.eventCh = ing.eventCh := by
        unfold trySubscribe
        split <;> rfl
      have heff : ∀ e ∈ (trySubscribe ing s).effects,
          e ≠ Effect.onServerAdd ∧ e ≠ Effect.goFlusher := by
        unfold trySubscribe
        split <;> simp
      simp only [subscribeExisting]
      refine ⟨h1.trans hcfg, h2.trans hch, ?_, ?_, ?_⟩
      · intro id
        rw [h3 id, hsub]
        simp only [Finset.mem_insert, List.mem_cons, exists_eq_or_imp]
        constructor
        · rintro ((h | h) | h)
          · exact Or.inr (Or.inl h.symm)
          · exact Or.inl h
          · exact Or.inr (Or.inr h)
        · rintro (h | h | h)
          · exact Or.inl (Or.inr h)
          · exact Or.inl (Or.inl h.symm)
          · exact Or.inr h
      · intro id
        rw [spawned_append, List.mem_append, h4 id, hsp, hsub]
        simp only [Finset.mem_insert, List.mem_cons, exists_eq_or_imp]
        by_cases hmem : s.ID ∈ ing.subscribedServers
        · simp only [hmem, if_true, List.not_mem_nil, false_or]
          constructor
          · rintro ⟨hn, hex⟩
            exact ⟨fun h => hn (Or.inr h), Or.inr hex⟩
          · rintro ⟨hn, hex⟩
            rcases hex with hex | hex
            · exact absurd (hex ▸ hmem) hn
            · exact ⟨fun h => h.elim (fun h1 => hn (h1 ▸ hmem)) hn, hex⟩
        · simp only [hmem, if_false, List.mem_singleton]
          constructor
          · rintro (h | ⟨hn, hex⟩)
            · exact ⟨h ▸ hmem, Or.inl h.symm⟩
            · exact ⟨fun h => hn (Or.inr h), Or.inr hex⟩
          · rintro ⟨hn, hex⟩
            by_cases hid : id = s.ID
            · exact Or.inl hid
            · rcases hex with hex | hex
              · exact absurd hex.symm hid
              · exact Or.inr ⟨fun h => h.elim hid hn, hex⟩
      · intro e he
        rcases List.mem_append.mp he with he | he
        · exact heff e he
        · exact h5 e he

/-- C13: for every configuration and every list of existing servers,
`NewIngestor` returns an ingestor exactly when `Enabled` is set and none of
`URL`, `APIToken` and `Dataset` is the empty string. In that case the hook is
registered before anything else, every existing server is in the subscription
map and has had a listener started, and the flush loop is started; the
ingestor carries the configuration and an empty queue. In every other case it
returns nil, registers no hook, starts no listener and no other goroutine. -/
theorem config_gate (cfg : AxiomConfiguration) (all : List Server) :
    ((NewIngestor cfg all).1.isSome = true ↔
      cfg.Enabled = true ∧ cfg.URL ≠ "" ∧ cfg.APIToken ≠ "" ∧ cfg.Dataset ≠ "") ∧
    (cfg.Enabled = true ∧ cfg.URL ≠ "" ∧ cfg.APIToken ≠ "" ∧ cfg.Dataset ≠ "" →
      ∃ ing, (NewIngestor cfg all).1 = some ing ∧ ing.cfg = cfg ∧
        ing.eventCh = { cap := 10000, buf := [] } ∧
        (NewIngestor cfg all).2.head? = some Effect.onServerAdd ∧
        (∀ s ∈ all, s.ID ∈ ing.subscribedServers ∧ s.ID ∈ spawned (NewIngestor cfg all).2) ∧
        (∀ id ∈ ing.subscribedServers, ∃ s ∈ all, s.ID = id) ∧
        (NewIngestor cfg all).2.getLast? = some Effect.goFlusher) ∧
    (¬ (cfg.Enabled = true ∧ cfg.URL ≠ "" ∧ cfg.APIToken ≠ "" ∧ cfg.Dataset ≠ "") →
      (NewIngestor cfg all).1 = none ∧ Effect.onServerAdd ∉ (NewIngestor cfg all).2 ∧
      spawned (NewIngestor cfg all).2 = [] ∧ tasks (NewIngestor cfg all).2 = []) := by
  obtain ⟨h1, h2, h3, h4, _⟩ := subscribeExisting_spec all (Ingestor.init cfg)
  refine ⟨?_, ?_, ?_⟩
  · unfold NewIngestor
    cases hE : cfg.Enabled
    · simp
    · by_cases hb : cfg.URL = "" ∨ cfg.APIToken = "" ∨ cfg.Dataset = ""
      · simp only [Bool.not_true, Bool.false_eq_true, if_false, if_pos hb]
        simp only [Option.isSome_none, Bool.false_eq_true, ne_eq, true_and, false_iff]
        tauto
      · simp only [Bool.not_true, Bool.false_eq_true, if_false, if_neg hb]
        simp only [Option.isSome_some, ne_eq, true_and, true_iff]
        tauto
  · rintro ⟨hE, hU, hT, hD⟩
    have hb : ¬ (cfg.URL = "" ∨ cfg.APIToken = "" ∨ cfg.Dataset = "") := by tauto
    refine ⟨(subscribeExisting (Ingestor.init cfg) all).1, ?_, h1, h2, ?_, ?_, ?_, ?_⟩
    · simp [NewIngestor, hE, hb]
    · simp [NewIngestor, hE, hb]
    · intro s hs
      refine ⟨(h3 s.ID).mpr (Or.inr ⟨s, hs, rfl⟩), ?_⟩
      simp only [NewIngestor, hE, Bool.not_true, Bool.false_eq_true, if_false, if_neg hb]
      rw [spawned_append, spawned_append, List.mem_append, List.mem_append]
      exact Or.inl (Or.inr ((h4 s.ID).mpr ⟨by simp [Ingestor.init], s, hs, rfl⟩))
    · intro id hid
      rcases (h3 id).mp hid with h | h
      · simp [Ingestor.init] at h
      · exact h
    · simp only [NewIngestor, hE, Bool.not_true, Bool.false_eq_true, if_false, if_neg hb]
      rw [List.getLast?_append]
      rfl
  · intro hno
    unfold NewIngestor
    cases hE : cfg.Enabled
    · simp [spawned, tasks]
    · have hb : cfg.URL = "" ∨ cfg.APIToken = "" ∨ cfg.Dataset = "" := by
        by_contra hnb
        exact hno ⟨hE, by tauto, by tauto, by tauto⟩
      simp only [Bool.not_true, Bool.false_eq_true, if_false, if_pos hb]
      simp [spawned, tasks]

/-- Witness of C13: the sample configuration with two existing servers starts the
pipeline; without a token it does not. -/
theorem config_gate_witness :
    (sampleCfg.Enabled = true ∧ sampleCfg.URL ≠ "" ∧ sampleCfg.APIToken ≠ "" ∧
      sampleCfg.Dataset ≠ "") ∧
    (NewIngestor sampleCfg [⟨"a"⟩, ⟨"b"⟩, ⟨"a"⟩]).1.isSome = true ∧
    spawned (NewIngestor sampleCfg [⟨"a"⟩, ⟨"b"⟩, ⟨"a"⟩]).2 = ["a", "b"] ∧
    NewIngestor { sampleCfg with APIToken := "" } [⟨"a"⟩, ⟨"b"⟩] =
      (none,
        [ Effect.log ⟨Level.warn, [],
            "axiom: enabled but url, api_token, or dataset is empty; skipping initialization"⟩ ]) :=
  ⟨by decide,
    (config_gate sampleCfg [⟨"a"⟩, ⟨"b"⟩, ⟨"a"⟩]).1.mpr (by decide),
    by decide, by decide⟩

/-! ## Topic filtering -/

theorem enqueue_at_most_one (ing : Ingestor) (ev : AxiomEvent) (t1 t2 : Instant) :
    (enqueue ing ev t1 t2).ing.eventCh.buf = ing.eventCh.buf ∨
      (enqueue ing ev t1 t2).ing.eventCh.buf = ing.eventCh.buf ++ [ev] := by
  rw [enqueue_buf]
  split
  · exact Or.inr rfl
  · exact Or.inl rfl

/-- C14: let the two topic constants be distinct. For every source id, queue
state and message, `processEvent` adds at most one event to the queue. When the
envelope decodes with the stats topic and the stats payload decodes, it makes
exactly one call of `enqueue`, with the stats event of that payload, whose type
is `stats` and whose `server_id` is the source id; likewise with the status
topic and the status event. That event is appended when the queue has room.
When the envelope does not decode, the topic is neither of the two, or the
payload does not decode, the ingestor and its queue are unchanged. In every
case the iteration of the listener loop that handled the message goes on to the
next one. -/
theorem topic_filtering (d : Decoding) (hdistinct : d.StatsEvent ≠ d.StatusEvent)
    (ing : Ingestor) (serverID : String) (data : Bytes) (now : String) (t1 t2 : Instant) :
    ((processEvent d ing serverID data now t1 t2).ing.eventCh.buf = ing.eventCh.buf ∨
      ∃ ev, (processEvent d ing serverID data now t1 t2).ing.eventCh.buf =
        ing.eventCh.buf ++ [ev]) ∧
    (∀ (e : Event) (stats : statsEventData),
      d.decodeEvent data = Except.ok e → e.Topic = d.StatsEvent →
      d.decodeStats data = Except.ok stats →
      processEvent d ing serverID data now t1 t2 =
        enqueue ing (statsAxiomEvent now serverID stats) t1 t2 ∧
      (statsAxiomEvent now serverID stats).EventType = "stats" ∧
      (statsAxiomEvent now serverID stats).ServerID = serverID ∧
      (ing.eventCh.buf.length < ing.eventCh.cap →
        (processEvent d ing serverID data now t1 t2).ing.eventCh.buf =
          ing.eventCh.buf ++ [statsAxiomEvent now serverID stats])) ∧
    (∀ (e : Event) (status : statusEventData),
      d.decodeEvent data = Except.ok e → e.Topic = d.StatusEvent →
      d.decodeStatus data = Except.ok status →
      processEvent d ing serverID data now t1 t2 =
        enqueue ing (statusAxiomEvent now serverID status) t1 t2 ∧
      (statusAxiomEvent now serverID status).EventType = "status" ∧
      (statusAxiomEvent now serverID status).ServerID = serverID ∧
      (ing.eventCh.buf.length < ing.eventCh.cap →
        (processEvent d ing serverID data now t1 t2).ing.eventCh.buf =
          ing.eventCh.buf ++ [statusAxiomEvent now serverID status])) ∧
    (((∃ err, d.decodeEvent data = Except.error err) ∨
      (∃ e, d.decodeEvent data = Except.ok e ∧ e.Topic ≠ d.StatsEvent ∧
        e.Topic ≠ d.StatusEvent) ∨
      (∃ e err, d.decodeEvent data = Except.ok e ∧ e.Topic = d.StatsEvent ∧
        d.decodeStats data = Except.error err) ∨
      (∃ e err, d.decodeEvent data = Except.ok e ∧ e.Topic = d.StatusEvent ∧
        d.decodeStatus data = Except.error err)) →
      (processEvent d ing serverID data now t1 t2).ing = ing ∧
      (processEvent d ing serverID data now t1 t2).ing.eventCh.buf = ing.eventCh.buf) ∧
    (subscribeServerIter d ing serverID now t1 t2 (ListenerCase.event (some data))).val = true ∧
    (subscribeServerIter d ing serverID now t1 t2 (ListenerCase.event (some data))).ing =
      (processEvent d ing serverID data now t1 t2).ing := by
  refine ⟨?_, ?_, ?_, ?_, rfl, rfl⟩
  · unfold processEvent
    cases d.decodeEvent data with
    | error err => exact Or.inl rfl
    | ok e =>
        simp only
        split
        · cases d.decodeStats data with
          | error err => exact Or.inl rfl
          | ok stats =>
              rcases enqueue_at_most_one ing (statsAxiomEvent now serverID stats) t1 t2 with h | h
              · exact Or.inl h
              · exact Or.inr ⟨_, h⟩
        · split
          · cases d.decodeStatus data with
            | error err => exact Or.inl rfl
            | ok status =>
                rcases enqueue_at_most_one ing (statusAxiomEvent now serverID status) t1 t2
                  with h | h
                · exact Or.inl h
                · exact Or.inr ⟨_, h⟩
          · exact Or.inl rfl
  · intro e stats henv htopic hstats
    have hproc : processEvent d ing serverID data now t1 t2 =
        enqueue ing (statsAxiomEvent now serverID stats) t1 t2 := by
      simp [processEvent, henv, htopic, hstats]
    refine ⟨hproc, rfl, rfl, ?_⟩
    intro hroom
    rw [hproc, enqueue_buf, if_pos hroom]
  · intro e status henv htopic hstatus
    have hne : ¬ e.Topic = d.StatsEvent := by
      rw [htopic]
      exact fun h => hdistinct h.symm
    have hproc : processEvent d ing serverID data now t1 t2 =
        enqueue ing (statusAxiomEvent now serverID status) t1 t2 := by
      unfold processEvent
      simp only [henv, if_neg hne, if_pos htopic, hstatus]
    refine ⟨hproc, rfl, rfl, ?_⟩
    intro hroom
    rw [hproc, enqueue_buf, if_pos hroom]
  · intro hcase
    have hing : (processEvent d ing serverID data now t1 t2).ing = ing := by
      rcases hcase with ⟨err, h⟩ | ⟨e, h, hn1, hn2⟩ | ⟨e, err, h, ht, hd⟩ | ⟨e, err, h, ht, hd⟩
      · simp [processEvent, h]
      · unfold processEvent
        simp only [h, if_neg hn1, if_neg hn2]
      · unfold processEvent
        simp only [h, if_pos ht, hd]
      · have hne : ¬ e.Topic = d.StatsEvent := by
          rw [ht]
          exact fun h => hdistinct h.symm
        unfold processEvent
        simp only [h, if_neg hne, if_pos ht, hd]
    exact ⟨hing, by rw [hing]⟩

/-- Witness of C14: a stats message is enqueued, a console-output message and a
stats message with a broken payload are not. -/
theorem topic_filtering_witness :
    sampleDecoding.StatsEvent ≠ sampleDecoding.StatusEvent ∧
    (processEvent sampleDecoding (Ingestor.init sampleCfg) "srv" [1, 1] "t0" 0 0).ing.eventCh.buf =
      [statsAxiomEvent "t0" "srv" ⟨"stats", ⟨100, 200, 1 / 2, ⟨10, 20⟩, 5, 1000, none⟩⟩] ∧
    (processEvent sampleDecoding (Ingestor.init sampleCfg) "srv" [3, 1] "t0" 0 0).ing =
      Ingestor.init sampleCfg ∧
    (processEvent sampleDecoding (Ingestor.init sampleCfg) "srv" [1, 0] "t0" 0 0).ing =
      Ingestor.init sampleCfg :=
  ⟨by decide,
    ((topic_filtering sampleDecoding (by decide) (Ingestor.init sampleCfg) "srv" [1, 1] "t0"
      0 0).2.1 ⟨"stats"⟩ ⟨"stats", ⟨100, 200, 1 / 2, ⟨10, 20⟩, 5, 1000, none⟩⟩ rfl rfl rfl).2.2.2
      (by decide),
    ((topic_filtering sampleDecoding (by decide) (Ingestor.init sampleCfg) "srv" [3, 1] "t0"
      0 0).2.2.2.1 (Or.inr (Or.inl ⟨⟨"console output"⟩, rfl, by decide, by decide⟩))).1,
    ((topic_filtering sampleDecoding (by decide) (Ingestor.init sampleCfg) "srv" [1, 0] "t0"
      0 0).2.2.2.1
      (Or.inr (Or.inr (Or.inl ⟨⟨"stats"⟩, "cannot unmarshal", rfl, rfl, rfl⟩)))).1⟩

/-! ## Conservation -/

theorem run_append (envs : Nat → Env) (a b : List Step) (p : Pipeline) :
    run envs p (a ++ b) = (run envs p a).bind (fun q => run envs q b) := by
  induction a generalizing p with
  | nil => rfl
  | cons x xs ih =>
      simp only [List.cons_append, run]
      cases step envs p x with
      | none => rfl
      | some q => exact ih q

theorem step_done_exited (envs : Nat → Env) (q p : Pipeline)
    (h : step envs q Step.done = some p) : p.exited = true ∧ p.ing.eventCh.buf = [] := by
  simp only [step] at h
  split at h
  · exact absurd h (by simp)
  · simp only [Option.some.injEq, drain_eq] at h
    subst h
    constructor
    · rfl
    · split
      · simp [callFlush_eq]
      · rfl

/-- C15: for every run of the flush loop from its start (empty batch) through
any interleaving of enqueue calls, event arrivals and timer fires and ended by
the shutdown signal, the loop has returned, the queue is empty, the flushed
batches concatenated in flush order are exactly the events taken from the
queue in the order they were taken, and no flushed batch is empty. At every
earlier point of the run the flushed batches followed by the current batch are
the events taken so far. -/
theorem flush_loop_conservation (envs : Nat → Env) (ing : Ingestor) (pre : List Step)
    (p : Pipeline) (hrun : run envs (flusherStart ing) (pre ++ [Step.done]) = some p) :
    p.exited = true ∧ p.ing.eventCh.buf = [] ∧
    p.flushed.flatten = p.taken ∧ (∀ b ∈ p.flushed, b ≠ []) ∧
    ∀ (k : Nat) (q : Pipeline), run envs (flusherStart ing) (pre.take k) = some q →
      q.exited = false → q.flushed.flatten ++ q.batch = q.taken ∧ ∀ b ∈ q.flushed, b ≠ [] := by
  have hinv := run_inv envs (pre ++ [Step.done]) (flusherStart ing) p (flusherStart_inv ing) hrun
  rw [run_append] at hrun
  cases hq : run envs (flusherStart ing) pre with
  | none => simp [hq] at hrun
  | some q =>
      simp only [hq, Option.some_bind, run] at hrun
      cases hs : step envs q Step.done with
      | none => simp [hs] at hrun
      | some p1 =>
          simp only [hs, Option.some.injEq] at hrun
          subst hrun
          have hd := step_done_exited envs q p1 hs
          refine ⟨hd.1, hd.2, (hinv.1.2.2.2 hd.1).symm, hinv.1.2.1, ?_⟩
          intro k q1 hq1 hlive
          have h1 := (run_inv envs (pre.take k) (flusherStart ing) q1 (flusherStart_inv ing)
            hq1).1
          exact ⟨((h1.2.2.1 hlive).1).symm, h1.2.1⟩

/-- Witness of C15: three events, a size-triggered flush, a timer fire, an event
left in the queue at shutdown. -/
theorem flush_loop_conservation_witness :
    ∃ p, run okEnvs (flusherStart (Ingestor.init (cfgWithBatch 2)))
        ([Step.enqueue ev1 0 0, Step.enqueue ev2 0 0, Step.recv, Step.recv,
          Step.enqueue ev3 0 0, Step.recv, Step.tick, Step.enqueue ev1 0 0] ++
          [Step.done]) = some p ∧
      p.flushed = [[ev1, ev2], [ev3], [ev1]] ∧ p.flushed.flatten = p.taken := by
  obtain ⟨p, hp⟩ : ∃ p, run okEnvs (flusherStart (Ingestor.init (cfgWithBatch 2)))
      ([Step.enqueue ev1 0 0, Step.enqueue ev2 0 0, Step.recv, Step.recv,
        Step.enqueue ev3 0 0, Step.recv, Step.tick, Step.enqueue ev1 0 0] ++
        [Step.done]) = some p := ⟨_, rfl⟩
  have hf : (run okEnvs (flusherStart (Ingestor.init (cfgWithBatch 2)))
      ([Step.enqueue ev1 0 0, Step.enqueue ev2 0 0, Step.recv, Step.recv,
        Step.enqueue ev3 0 0, Step.recv, Step.tick, Step.enqueue ev1 0 0] ++
        [Step.done])).map (fun q => q.flushed) = some [[ev1, ev2], [ev3], [ev1]] := by
    decide
  rw [hp] at hf
  exact ⟨p, hp, by simpa using hf,
    (flush_loop_conservation okEnvs (Ingestor.init (cfgWithBatch 2))
      [Step.enqueue ev1 0 0, Step.enqueue ev2 0 0, Step.recv, Step.recv,
        Step.enqueue ev3 0 0, Step.recv, Step.tick, Step.enqueue ev1 0 0] p hp).2.2.1⟩

/-! ## Classification of attempts -/

theorem posts_sleep_prefix (b : Duration) (es : List Effect) :
    posts ((if b > 0 then [Effect.sleep b] else []) ++ es) = posts es := by
  split <;> simp [posts]

theorem retryWarning_level (o : Outcome) (a : Nat) : (retryWarning o a).level = Level.warn := by
  cases o <;> rfl

theorem outcome_cases (o : Outcome) :
    o.retried ∨ o.success ∨ ∃ c, o = Outcome.response c ∧ 400 ≤ c ∧ c ≤ 499 := by
  cases o with
  | transportError e => exact Or.inl trivial
  | response c =>
      by_cases h2 : 200 ≤ c ∧ c ≤ 299
      · exact Or.inr (Or.inl h2)
      · by_cases h4 : 400 ≤ c ∧ c ≤ 499
        · exact Or.inr (Or.inr ⟨c, rfl, h4⟩)
        · refine Or.inl ?_
          simp only [Outcome.retried]
          omega

theorem posts_flushLoop_nil (env : Env) (ing : Ingestor) (batch : List AxiomEvent)
    (url : String) (body : Bytes) (a : Nat) :
    posts (flushLoop env ing batch url body a []) = [] := by
  simp [flushLoop, posts]

theorem posts_flushLoop_cons (env : Env) (ing : Ingestor) (batch : List AxiomEvent)
    (url : String) (body : Bytes) (a : Nat) (b : Duration) (rest : List Duration)
    (hu : env.newRequestErr url = none) :
    posts (flushLoop env ing batch url body a (b :: rest)) =
      buildRequest ing url body ::
        (if (env.answer a).retried then posts (flushLoop env ing batch url body (a + 1) rest)
          else []) := by
  rcases outcome_cases (env.answer a) with hr | hs | ⟨c, hc, h4⟩
  · rw [flushLoop_retried env ing batch url body a b rest hu hr, posts_sleep_prefix, if_pos hr]
    simp [posts]
  · have hnr : ¬ (env.answer a).retried := by
      cases ho : env.answer a with
      | transportError e =>
          rw [ho] at hs
          exact absurd hs (by simp [Outcome.success])
      | response c =>
          rw [ho] at hs
          simp only [Outcome.success] at hs
          simp only [Outcome.retried]
          omega
    rw [flushLoop_success env ing batch url body a b rest hu hs, posts_sleep_prefix, if_neg hnr]
    simp [posts]
  · have hnr : ¬ (env.answer a).retried := by
      rw [hc]
      simp only [Outcome.retried]
      omega
    rw [flushLoop_permanent env ing batch url body a b rest hu c hc h4, posts_sleep_prefix,
      if_neg hnr]
    simp [posts]

theorem quiet_append (a b : List Effect) : quiet (a ++ b) = quiet a ++ quiet b := by
  simp [quiet, List.filter_append]

theorem quiet_cons_post (r : Request) (es : List Effect) :
    quiet (Effect.post r :: es) = Effect.post r :: quiet es := by
  simp [quiet, isWarning]

theorem quiet_cons_warning (l : LogEntry) (es : List Effect) (h : l.level = Level.warn) :
    quiet (Effect.log l :: es) = quiet es := by
  simp [quiet, isWarning, h]

theorem flushLoop_quiet_congr (env1 env2 : Env) (ing : Ingestor) (batch : List AxiomEvent)
    (url : String) (body : Bytes) (k : Nat)
    (hnr : env1.newRequestErr url = env2.newRequestErr url)
    (hagree : ∀ j, j ≠ k → env1.answer j = env2.answer j)
    (h1 : (env1.answer k).retried) (h2 : (env2.answer k).retried)
    (bs : List Duration) (a : Nat) :
    quiet (flushLoop env1 ing batch url body a bs) =
      quiet (flushLoop env2 ing batch url body a bs) := by
  induction bs generalizing a with
  | nil => simp [flushLoop]
  | cons b rest ih =>
      cases hreq : env1.newRequestErr url with
      | some err =>
          have hreq2 : env2.newRequestErr url = some err := by rw [← hnr, hreq]
          rw [flushLoop, flushLoop, hreq, hreq2]
      | none =>
          have hreq2 : env2.newRequestErr url = none := by rw [← hnr, hreq]
          by_cases hak : a = k
          · subst hak
            rw [flushLoop_retried env1 ing batch url body a b rest hreq h1,
              flushLoop_retried env2 ing batch url body a b rest hreq2 h2]
            rw [quiet_append, quiet_append, quiet_cons_post, quiet_cons_post,
              quiet_cons_warning _ _ (retryWarning_level _ _),
              quiet_cons_warning _ _ (retryWarning_level _ _), ih (a + 1)]
          · have hsame := hagree a hak
            rw [flushLoop, flushLoop, hreq, hreq2, hsame]
            cases env2.answer a with
            | transportError e =>
                simp only
                rw [quiet_append, quiet_append, quiet_cons_post, quiet_cons_post,
                  quiet_cons_warning _ _ rfl, quiet_cons_warning _ _ rfl, ih (a + 1)]
            | response c =>
                simp only
                by_cases h2xx : c ≥ 200 ∧ c < 300
                · simp only [if_pos h2xx]
                · by_cases h4xx : c ≥ 400 ∧ c < 500
                  · simp only [if_neg h2xx, if_pos h4xx]
                  · simp only [if_neg h2xx, if_neg h4xx]
                    rw [quiet_append, quiet_append, quiet_cons_post, quiet_cons_post,
                      quiet_cons_warning _ _ rfl, quiet_cons_warning _ _ rfl, ih (a + 1)]

/-- C16 (amended): let the batch serialize and the request be built, and let
every attempt before attempt k+1 (k+1 at most 3) be one that is retried. Then
attempt k+1 is made, and it is followed by a further attempt if and only if it
ended in a transport error or in a status that is neither in 200..299 nor in
400..499, and it was not the third attempt. A status below 200, in 300..399 or
from 600 on is such a status: `flush` logs the same retry warning as for a 5xx
status, and apart from warnings its effects (requests, sleeps, failure reports)
are identical to those it has when that attempt is answered with any 5xx
status instead. -/
theorem flush_retry_classification (env : Env) (ing : Ingestor) (batch : List AxiomEvent)
    (body : Bytes) (hm : env.marshal batch = Except.ok body)
    (hu : env.newRequestErr (ingestURL ing.cfg) = none)
    (k : Nat) (hk : k < 3) (hprev : ∀ j, j < k → (env.answer j).retried) :
    k + 1 ≤ (posts (flush env ing batch).effects).length ∧
    (k + 2 ≤ (posts (flush env ing batch).effects).length ↔
      (env.answer k).retried ∧ k < 2) ∧
    ∀ c : Int, env.answer k = Outcome.response c →
      (c < 200 ∨ (300 ≤ c ∧ c ≤ 399) ∨ 600 ≤ c) →
      (env.answer k).retried ∧
      Effect.log ⟨Level.warn,
        [("status", FieldValue.int c), ("attempt", FieldValue.int (k + 1))],
        "axiom: server error during ingest, retrying"⟩ ∈ (flush env ing batch).effects ∧
      ∀ c5 : Int, 500 ≤ c5 ∧ c5 ≤ 599 →
        quiet (flush env ing batch).effects =
          quiet (flush (env.withAnswer k (Outcome.response c5)) ing batch).effects := by
  have hcases : k = 0 ∨ k = 1 ∨ k = 2 := by omega
  have hposts : posts (flush env ing batch).effects =
      posts (flushLoop env ing batch (ingestURL ing.cfg) body 0 backoffs) := by
    simp only [flush, hm]
  refine ⟨?_, ?_, ?_⟩
  · rw [hposts]
    rcases hcases with rfl | rfl | rfl
    · simp [backoffs, posts_flushLoop_cons _ _ _ _ _ _ _ _ hu]
    · have h0 := hprev 0 (by omega)
      simp [backoffs, posts_flushLoop_cons _ _ _ _ _ _ _ _ hu, h0]
    · have h0 := hprev 0 (by omega)
      have h1 := hprev 1 (by omega)
      simp [backoffs, posts_flushLoop_cons _ _ _ _ _ _ _ _ hu, h0, h1]
  · rw [hposts]
    rcases hcases with rfl | rfl | rfl
    · by_cases hr : (env.answer 0).retried <;>
        simp [backoffs, posts_flushLoop_cons _ _ _ _ _ _ _ _ hu, hr]
    · have h0 := hprev 0 (by omega)
      by_cases hr : (env.answer 1).retried <;>
        simp [backoffs, posts_flushLoop_cons _ _ _ _ _ _ _ _ hu, h0, hr]
    · have h0 := hprev 0 (by omega)
      have h1 := hprev 1 (by omega)
      by_cases hr : (env.answer 2).retried <;>
        simp [backoffs, posts_flushLoop_cons _ _ _ _ _ _ _ _ hu, h0, h1, hr,
          posts_flushLoop_nil]
  · intro c hans hc
    have hr : (env.answer k).retried := by
      rw [hans]
      simp only [Outcome.retried]
      omega
    refine ⟨hr, ?_, ?_⟩
    · simp only [flush, hm, backoffs]
      rcases hcases with rfl | rfl | rfl
      · rw [flushLoop_retried _ _ _ _ _ _ _ _ hu hr, hans]
        simp [retryWarning]
      · have h0 := hprev 0 (by omega)
        rw [flushLoop_retried _ _ _ _ _ _ _ _ hu h0, flushLoop_retried _ _ _ _ _ _ _ _ hu hr,
          hans]
        simp [retryWarning]
      · have h0 := hprev 0 (by omega)
        have h1 := hprev 1 (by omega)
        rw [flushLoop_retried _ _ _ _ _ _ _ _ hu h0, flushLoop_retried _ _ _ _ _ _ _ _ hu h1,
          flushLoop_retried _ _ _ _ _ _ _ _ hu hr, hans]
        simp [retryWarning]
    · intro c5 hc5
      have hm5 : (env.withAnswer k (Outcome.response c5)).marshal batch = Except.ok body := hm
      simp only [flush, hm, hm5]
      refine flushLoop_quiet_congr env (env.withAnswer k (Outcome.response c5)) ing batch
        (ingestURL ing.cfg) body k rfl ?_ hr ?_ backoffs 0
      · intro j hj
        simp [Env.withAnswer, hj]
      · simp only [Env.withAnswer, if_true, Outcome.retried]
        omega

/-- Counterexample to C16 as stated: the first attempt is answered 304, a status
inside 200..499, and it is not the third attempt, yet it is followed by a
retry: two requests are made. -/
theorem flush_retry_classification_counterexample :
    (sampleEnv [Outcome.response 304, Outcome.response 200]).answer 0 = Outcome.response 304 ∧
    ¬ ((304 : Int) < 200 ∨ (499 : Int) < 304) ∧
    (posts (flush (sampleEnv [Outcome.response 304, Outcome.response 200])
      (Ingestor.init sampleCfg) [ev1]).effects).length = 2 := by
  decide

/-- Witness of C16 (amended): a first attempt answered 304 is retried, like one
answered 503. -/
theorem flush_retry_classification_witness :
    ((sampleEnv [Outcome.response 304, Outcome.response 200]).answer 0).retried ∧
    0 + 2 ≤ (posts (flush (sampleEnv [Outcome.response 304, Outcome.response 200])
      (Ingestor.init sampleCfg) [ev1]).effects).length ∧
    quiet (flush (sampleEnv [Outcome.response 304, Outcome.response 200])
        (Ingestor.init sampleCfg) [ev1]).effects =
      quiet (flush ((sampleEnv [Outcome.response 304, Outcome.response 200]).withAnswer 0
        (Outcome.response 503)) (Ingestor.init sampleCfg) [ev1]).effects :=
  ⟨by decide,
    (flush_retry_classification (sampleEnv [Outcome.response 304, Outcome.response 200])
      (Ingestor.init sampleCfg) [ev1] [91, 93] rfl rfl 0 (by decide)
      (fun j hj => absurd hj (Nat.not_lt_zero j))).2.1.mpr ⟨by decide, by decide⟩,
    ((flush_retry_classification (sampleEnv [Outcome.response 304, Outcome.response 200])
      (Ingestor.init sampleCfg) [ev1] [91, 93] rfl rfl 0 (by decide)
      (fun j hj => absurd hj (Nat.not_lt_zero j))).2.2 304 rfl (by decide)).2.2 503
      (by decide)⟩

end Wings
